import Mathlib

/-!
# Verification of the epsp-kit signal pipeline

Shallow embedding of the transform / feature-extraction core of `epspkit`
(stimulus-artifact cropping, template subtraction, sweep averaging, fiber
volley and population spike feature extraction) together with proofs that
settle the specification claims.

Conventions of the embedding:

* Python floats are modelled by `ℚ` (the values the claims exercise are
  exact decimals; `np.nan` sentinels are modelled by `Option ℚ`, with
  `none` standing for NaN, mirroring the `np.isfinite` guards).
* `pandas` data frames are modelled by lists of typed rows; `groupby`
  composes a key extraction with a stable sort, exactly as pandas does.
* Python exceptions (`ValueError` etc.) are modelled by an explicit error
  type through `Except`.
-/

namespace Epspkit

/-! ## Numeric kernel primitives (numpy / scipy, as used by `epspkit.core.math`) -/

/-- `np.searchsorted(x, v)` (side `left`) on a sorted array: the number of
entries strictly below `v`, i.e. the first index whose entry is `≥ v`. -/
def searchsorted (x : List ℚ) (v : ℚ) : Nat :=
  x.countP (fun xi => decide (xi < v))

/-- First index, at or after `j` and below `iMax`, whose entry differs from
`v`; returns `iMax` if the plateau of value `v` runs to `iMax`.  This is the
inner `while i_ahead < i_max and x[i_ahead] == x[i]` loop of scipy's
`_local_maxima_1d`.  `fuel` structurally bounds the loop; any
`fuel ≥ iMax - j` computes the loop's result. -/
def plateauEnd (y : Array ℚ) (iMax : Nat) (v : ℚ) : Nat → Nat → Nat
  | 0, j => j
  | fuel + 1, j =>
    if j < iMax ∧ y.getD j 0 = v then plateauEnd y iMax v fuel (j + 1) else j

/-- The outer loop of scipy's `_local_maxima_1d`: indices `i` with
`y[i-1] < y[i]` and the first differing entry after the plateau of `y[i]`
strictly smaller; a flat peak reports the plateau midpoint.  Boundary
samples are never peaks. -/
def localMaximaAux (y : Array ℚ) : Nat → Nat → List Nat
  | 0, _ => []
  | fuel + 1, i =>
    let iMax := y.size - 1
    if i < iMax then
      if y.getD (i - 1) 0 < y.getD i 0 then
        let ia := plateauEnd y iMax (y.getD i 0) y.size (i + 1)
        if y.getD ia 0 < y.getD i 0 then
          ((i + ia - 1) / 2) :: localMaximaAux y fuel (ia + 1)
        else
          localMaximaAux y fuel (i + 1)
      else
        localMaximaAux y fuel (i + 1)
    else []

/-- `scipy.signal.find_peaks(y)` with no filtering condition: the local
maxima of `y` in ascending index order.  (With no `prominence` argument the
returned ``properties`` dict has no ``"prominences"`` key.) -/
def findPeaks (y : Array ℚ) : List Nat :=
  localMaximaAux y y.size 1

/-- Left half of `scipy.signal.peak_prominences` (no `wlen`): walk left
from the peak while entries do not exceed the peak value, tracking the
running minimum. `i` is the current index, `m` the minimum so far. -/
def promLeftMin (y : Array ℚ) (pv : ℚ) : Nat → Nat → ℚ → ℚ
  | 0, _, m => m
  | fuel + 1, i, m =>
    let m := min m (y.getD i 0)
    if i = 0 then m
    else if y.getD (i - 1) 0 ≤ pv then promLeftMin y pv fuel (i - 1) m else m

/-- Right half of `scipy.signal.peak_prominences`: walk right from the peak
while entries do not exceed the peak value, tracking the running minimum. -/
def promRightMin (y : Array ℚ) (pv : ℚ) : Nat → Nat → ℚ → ℚ
  | 0, _, m => m
  | fuel + 1, i, m =>
    let m := min m (y.getD i 0)
    if i + 1 ≥ y.size then m
    else if y.getD (i + 1) 0 ≤ pv then promRightMin y pv fuel (i + 1) m else m

/-- `scipy.signal.peak_prominences(y, [p])[0][k]`: peak height above the
higher of the two base levels. -/
def prominence (y : Array ℚ) (p : Nat) : ℚ :=
  let pv := y.getD p 0
  pv - max (promLeftMin y pv y.size p pv) (promRightMin y pv y.size p pv)

/-- `scipy.signal.find_peaks(y, prominence=pmin)`: local maxima whose
prominence is at least `pmin`. -/
def findPeaksProm (y : Array ℚ) (pmin : ℚ) : List Nat :=
  (findPeaks y).filter (fun p => decide (pmin ≤ prominence y p))

/-- `np.argmax` over a list of values: index of the first maximal entry.
`bi`/`bv` are the best index and value so far, `i` the index of the head. -/
def argmaxAux (bi : Nat) (bv : ℚ) (i : Nat) : List ℚ → Nat
  | [] => bi
  | v :: vs => if bv < v then argmaxAux i v (i + 1) vs else argmaxAux bi bv (i + 1) vs

/-- `np.argmax(l)`; `0` on the empty list (numpy raises there). -/
def argmax : List ℚ → Nat
  | [] => 0
  | v :: vs => argmaxAux 0 v 1 vs

/-- `np.argmin` over a list of values: index of the first minimal entry. -/
def argminAux (bi : Nat) (bv : ℚ) (i : Nat) : List ℚ → Nat
  | [] => bi
  | v :: vs => if v < bv then argminAux i v (i + 1) vs else argminAux bi bv (i + 1) vs

/-- `np.argmin(l)`; `0` on the empty list (numpy raises there). -/
def argmin : List ℚ → Nat
  | [] => 0
  | v :: vs => argminAux 0 v 1 vs

/-- `np.gradient(y, x)` (default `edge_order=1`): second-order central
differences for non-uniform spacing in the interior, one-sided first-order
differences at the two boundaries.  Defined for `y.length ≥ 2` (numpy
raises below that); entries are produced positionally. -/
def npGradient (y x : List ℚ) : List ℚ :=
  let n := y.length
  let yi := fun i => y.getD i 0
  let xi := fun i => x.getD i 0
  (List.range n).map (fun i =>
    if i = 0 then (yi 1 - yi 0) / (xi 1 - xi 0)
    else if i = n - 1 then (yi (n-1) - yi (n-2)) / (xi (n-1) - xi (n-2))
    else
      let hd := xi i - xi (i-1)
      let hs := xi (i+1) - xi i
      (hs^2 * yi (i+1) + (hd^2 - hs^2) * yi i - hd^2 * yi (i-1))
        / (hs * hd * (hd + hs)))

/-- Ascending stable argsort (`np.argsort`): indices of `l` ordered by
value. numpy's default introsort order between exactly equal entries is
implementation defined; we fix the stable order (by index), and the
concrete theorems below only exercise tie-free inputs. -/
def argsort (l : List ℚ) : List Nat :=
  List.insertionSort
    (fun i j => l.getD i 0 < l.getD j 0 ∨ (l.getD i 0 = l.getD j 0 ∧ i ≤ j))
    (List.range l.length)

/-! ## Stable sorting by keys

pandas sorts are stable (`kind="mergesort"` where it matters, and group
keys are distinct elsewhere); a stable sort by a total preorder is unique,
so Mathlib's stable `insertionSort` is the faithful model throughout. -/

/-- Lexicographic `≤` on pairs, the order pandas uses for multi-column
keys. -/
def lexLe {α β : Type} [LinearOrder α] [LinearOrder β] (a b : α × β) : Prop :=
  a.1 < b.1 ∨ (a.1 = b.1 ∧ a.2 ≤ b.2)

instance {α β : Type} [LinearOrder α] [LinearOrder β] :
    DecidableRel (lexLe (α := α) (β := β)) :=
  fun _ _ => by unfold lexLe; infer_instance

theorem lexLe_total {α β : Type} [LinearOrder α] [LinearOrder β]
    (a b : α × β) : lexLe a b ∨ lexLe b a := by
  rcases lt_trichotomy a.1 b.1 with h | h | h
  · exact Or.inl (Or.inl h)
  · rcases le_total a.2 b.2 with h2 | h2
    · exact Or.inl (Or.inr ⟨h, h2⟩)
    · exact Or.inr (Or.inr ⟨h.symm, h2⟩)
  · exact Or.inr (Or.inl h)

theorem lexLe_trans {α β : Type} [LinearOrder α] [LinearOrder β]
    {a b c : α × β} (hab : lexLe a b) (hbc : lexLe b c) : lexLe a c := by
  rcases hab with h | ⟨h, h2⟩ <;> rcases hbc with h' | ⟨h', h2'⟩
  · exact Or.inl (h.trans h')
  · exact Or.inl (h'.symm ▸ h)
  · exact Or.inl (h ▸ h')
  · exact Or.inr ⟨h.trans h', h2.trans h2'⟩

instance {α β : Type} [LinearOrder α] [LinearOrder β] :
    IsTotal (α × β) lexLe := ⟨lexLe_total⟩

instance {α β : Type} [LinearOrder α] [LinearOrder β] :
    IsTrans (α × β) lexLe := ⟨fun _ _ _ => lexLe_trans⟩

/-! ## Error model

Every failure in the Python core is a raised exception (`ValueError`,
`IndexError`, …).  The spec's §7 names the error *kinds*; we keep one
constructor per kind that the verified code paths can raise. -/

inductive PipelineError where
  /-- `ValueError("Missing required PopSpikeFeature parameters: …")`,
  raised in a feature constructor (spec kind `MissingParameter`). -/
  | missingParameter (names : List String)
  /-- `ValueError("EPSPFeature result is required for PopSpikeFeature.")`
  (spec kind `MissingDependency`). -/
  | missingDependency
  /-- `ValueError("Time grid mismatch between sweep and template")`
  (spec kind `DataInconsistency`). -/
  | gridMismatch
  /-- `ValueError("Expected 'value' column in tidy data.")` raised by
  `average_sweeps`. -/
  | missingValueColumn
  /-- `IndexError` from `.iloc[0]` on an empty frame (crop emptied a sweep,
  or no upstream result row exists for a stimulus intensity). -/
  | indexError
  deriving DecidableEq, Repr

instance {ε α : Type} [DecidableEq ε] [DecidableEq α] :
    DecidableEq (Except ε α) := fun a b =>
  match a, b with
  | .error e, .error e' => decidable_of_iff (e = e') (by simp)
  | .error _, .ok _ => isFalse (by simp)
  | .ok _, .error _ => isFalse (by simp)
  | .ok x, .ok y => decidable_of_iff (x = y) (by simp)

/-! ## Sweep table rows and stable sorting

`crop_stim_artifact` selects the columns
`["stim_intensity", "abf_sweep", "time", "voltage"]` of the tidy frame;
`template_subtract_stim_artifact` additionally keeps `sweepNumber`.  We
model a tidy row with all five fields (the loader produces exactly these,
see `io/read_write.py`). -/

structure SweepRow where
  stim_intensity : ℚ
  abf_sweep : ℤ
  sweepNumber : ℤ
  time : ℚ
  voltage : ℚ
  deriving DecidableEq, Repr

/-- The `time` preorder of `sort_values("time")`. -/
def timeLe (a b : SweepRow) : Prop := a.time ≤ b.time

instance : DecidableRel timeLe := fun _ _ => by unfold timeLe; infer_instance

instance : IsTotal SweepRow timeLe := ⟨fun a b => le_total a.time b.time⟩

instance : IsTrans SweepRow timeLe := ⟨fun _ _ _ => le_trans⟩

/-- The `(abf_sweep, time)` preorder of
`sort_values(["abf_sweep", "time"])`. -/
def sweepTimeLe (a b : SweepRow) : Prop :=
  lexLe (a.abf_sweep, a.time) (b.abf_sweep, b.time)

instance : DecidableRel sweepTimeLe := fun _ _ => by unfold sweepTimeLe; infer_instance

instance : IsTotal SweepRow sweepTimeLe :=
  ⟨fun a b => lexLe_total (a.abf_sweep, a.time) (b.abf_sweep, b.time)⟩

instance : IsTrans SweepRow sweepTimeLe := ⟨fun _ _ _ => lexLe_trans⟩

/-- `g.sort_values("time")`. -/
def sortByTime (g : List SweepRow) : List SweepRow :=
  List.insertionSort timeLe g

/-- `g.sort_values(["abf_sweep", "time"])`. -/
def sortBySweepTime (g : List SweepRow) : List SweepRow :=
  List.insertionSort sweepTimeLe g

/-! ## `crop_stim_artifact` (`transforms/stim_artifact.py`) -/

/-- The per-partition body `crop_group` of `crop_stim_artifact`: sort by
time, drop the samples with time in `[t0, t1)` (located by
`np.searchsorted` at both ends), and re-zero time at the first remaining
sample.  `cropped["time"].iloc[0]` raises `IndexError` when nothing
remains, hence the `Option`. -/
def cropGroup (t0 t1 : ℚ) (g : List SweepRow) : Option (List SweepRow) :=
  let g := sortByTime g
  let x := g.map (·.time)
  let startIdx := searchsorted x t0
  let stopIdx := searchsorted x t1
  let cropped := g.take startIdx ++ g.drop stopIdx
  cropped.head?.map (fun r0 => cropped.map (fun r => { r with time := r.time - r0.time }))

/-- Group key of `groupby(["stim_intensity", "abf_sweep"])`. -/
def SweepRow.key (r : SweepRow) : ℚ × ℤ := (r.stim_intensity, r.abf_sweep)

/-- The sorted distinct `(stim_intensity, abf_sweep)` keys: pandas
`groupby` visits groups in ascending lexicographic key order. -/
def sortedKeys (tbl : List SweepRow) : List (ℚ × ℤ) :=
  List.insertionSort lexLe (tbl.map SweepRow.key).dedup

/-- Rows of one `(stim_intensity, abf_sweep)` partition, in table order. -/
def partitionOf (tbl : List SweepRow) (k : ℚ × ℤ) : List SweepRow :=
  tbl.filter (fun r => decide (r.key = k))

/-- `crop_stim_artifact(context, window_ms)` acting on the tidy table:
`groupby(["stim_intensity", "abf_sweep"], group_keys=False).apply(crop_group)`
applies the body per partition and concatenates the per-group results in
ascending key order.  `window_ms` is in milliseconds and divided by 1000. -/
def crop_stim_artifact (windowMs : ℚ × ℚ) (tbl : List SweepRow) :
    Option (List SweepRow) :=
  let t0 := windowMs.1 / 1000
  let t1 := windowMs.2 / 1000
  ((sortedKeys tbl).mapM (fun k => cropGroup t0 t1 (partitionOf tbl k))).map List.flatten

/-! ## `template_subtract_stim_artifact` (`transforms/stim_artifact.py`) -/

/-- `np.dot` of two equally long vectors. -/
def dot (a b : List ℚ) : ℚ :=
  ((a.zip b).map (fun p => p.1 * p.2)).sum

/-- Arithmetic mean of a list (`pandas` group `mean`); `0` on the empty
list, which no caller reaches since groups are nonempty. -/
def listMean (vs : List ℚ) : ℚ := vs.sum / vs.length

/-- The template trace of one intensity group:
`g_int.groupby("time", sort=True)["voltage"].mean()` — ascending distinct
times paired with the across-sweep mean voltage at each time. -/
def templateOf (gInt : List SweepRow) : List (ℚ × ℚ) :=
  (List.insertionSort (fun a b => a ≤ b) (gInt.map (·.time)).dedup).map
    (fun τ => (τ, listMean ((gInt.filter (fun r => decide (r.time = τ))).map (·.voltage))))

/-- `a[start:stop]` as list slicing. -/
def slice (l : List ℚ) (start stop : Nat) : List ℚ :=
  (l.drop start).take (stop - start)

/-- The energy denominator
`np.dot(T[start_idx:stop_idx], T[start_idx:stop_idx])` of the template of
one intensity group, with the window located on the template's time grid.
As in the source, the template is built from the group sorted by
`(abf_sweep, time)`. -/
def templateEnergy (t0 t1 : ℚ) (gInt : List SweepRow) : ℚ :=
  let gInt := sortBySweepTime gInt
  let tpl := templateOf gInt
  let t := tpl.map (·.1)
  let T := tpl.map (·.2)
  let startIdx := searchsorted t t0
  let stopIdx := searchsorted t t1
  dot (slice T startIdx stopIdx) (slice T startIdx stopIdx)

/-- `np.allclose(x, t)` with the default tolerances
`rtol=1e-5, atol=1e-8` (shape mismatch, which numpy turns into an error,
is reported as failure here; the caller raises either way). -/
def allclose (x t : List ℚ) : Bool :=
  x.length = t.length ∧
    (x.zip t).all (fun p => |p.1 - p.2| ≤ 1/10^8 + (1/10^5) * |p.2|)

/-- The per-intensity body `subtract_template` of
`template_subtract_stim_artifact`: sort the group by `(abf_sweep, time)`,
build the template, and — unless the window energy denominator is
`≤ 1e-20`, in which case the group is returned unmodified — project each
sweep's windowed voltage onto the template and subtract the projection,
failing on a time-grid mismatch. -/
def subtractTemplateGroup (t0 t1 : ℚ) (gInt : List SweepRow) :
    Except PipelineError (List SweepRow) :=
  let gInt := sortBySweepTime gInt
  let tpl := templateOf gInt
  let t := tpl.map (·.1)
  let T := tpl.map (·.2)
  let startIdx := searchsorted t t0
  let stopIdx := searchsorted t t1
  let denom := dot (slice T startIdx stopIdx) (slice T startIdx stopIdx)
  if denom ≤ 1/10^20 then .ok gInt
  else
    -- `g_int.groupby("abf_sweep", sort=False)`: first-appearance order,
    -- which is ascending because `gInt` was just sorted by sweep.
    let sweeps := List.insertionSort (fun a b => a ≤ b) (gInt.map (·.abf_sweep)).dedup
    (sweeps.mapM (fun sw =>
      (let g := sortByTime (gInt.filter (fun r => decide (r.abf_sweep = sw)))
       let x := g.map (·.time)
       let y := g.map (·.voltage)
       if allclose x t then
         let num := dot (slice y startIdx stopIdx) (slice T startIdx stopIdx)
         let a := num / denom
         .ok (g.mapIdx (fun i r =>
           if startIdx ≤ i ∧ i < stopIdx then
             { r with voltage := r.voltage - a * T.getD i 0 }
           else r))
       else .error PipelineError.gridMismatch :
        Except PipelineError (List SweepRow)))).map List.flatten

/-! ## `average_sweeps` (`transforms/average.py`)

`average_sweeps` reads the tidy frame generically by column *name*
(`"mean"`, `"value"`), so here the tidy frame is modelled with its two
grouping columns typed and the remaining data columns as a name-indexed
cell list (`cols` names position `i` of each row's `cells`). -/

structure TidyRow where
  stim_intensity : ℚ
  time : ℚ
  cells : List ℚ
  deriving DecidableEq, Repr

structure TidyTable where
  cols : List String
  rows : List TidyRow
  deriving DecidableEq, Repr

/-- Cell of the column at position `i` of `cols` (a well-formed frame has
`cells.length = cols.length`, so the default is never read). -/
def TidyRow.cell (r : TidyRow) (i : Nat) : ℚ := r.cells.getD i 0

/-- The `(stim_intensity, time)` preorder of
`sort_values(["stim_intensity", "time"], kind="mergesort")`. -/
def tidyKeyLe (a b : TidyRow) : Prop :=
  lexLe (a.stim_intensity, a.time) (b.stim_intensity, b.time)

instance : DecidableRel tidyKeyLe := fun _ _ => by unfold tidyKeyLe; infer_instance

instance : IsTotal TidyRow tidyKeyLe :=
  ⟨fun a b => lexLe_total (a.stim_intensity, a.time) (b.stim_intensity, b.time)⟩

instance : IsTrans TidyRow tidyKeyLe := ⟨fun _ _ _ => lexLe_trans⟩

/-- `sort_values(["stim_intensity", "time"], kind="mergesort")`. -/
def sortTidyRows (rows : List TidyRow) : List TidyRow :=
  List.insertionSort tidyKeyLe rows

/-- One output row of the aggregation.  pandas computes
`sem = std(ddof=1) / sqrt(n)`; the square root of a rational is
irrational in general, so the embedding records `semSq = sem²`
(`= var_ddof1 / n`), with `none` standing for the NaN that
`std(ddof=1)` yields on a single-element group. -/
structure AvgRow where
  stim_intensity : ℚ
  time : ℚ
  mean : ℚ
  semSq : Option ℚ
  deriving DecidableEq, Repr

/-- `context.averaged` after `average_sweeps`: either the tidy frame
passed through (empty input, or short-circuit on an existing `"mean"`
column) or the grouped mean/SEM aggregation. -/
inductive AveragedTable where
  | passthrough (t : TidyTable)
  | aggregated (rows : List AvgRow)
  deriving DecidableEq, Repr

/-- The `(stim_intensity, time)` preorder on aggregated rows. -/
def avgKeyLe (a b : AvgRow) : Prop :=
  lexLe (a.stim_intensity, a.time) (b.stim_intensity, b.time)

instance : DecidableRel avgKeyLe := fun _ _ => by unfold avgKeyLe; infer_instance

instance : IsTotal AvgRow avgKeyLe :=
  ⟨fun a b => lexLe_total (a.stim_intensity, a.time) (b.stim_intensity, b.time)⟩

instance : IsTrans AvgRow avgKeyLe := ⟨fun _ _ _ => lexLe_trans⟩

/-- `groupby(keys, sort=False)`: groups in order of first appearance, each
group collecting its members in table order. -/
def insertGrouped {κ β : Type} [DecidableEq κ] :
    List (κ × List β) → κ → β → List (κ × List β)
  | [], k, b => [(k, [b])]
  | (k', bs) :: rest, k, b =>
    if k' = k then (k', bs ++ [b]) :: rest else (k', bs) :: insertGrouped rest k b

def groupByKey {κ β : Type} [DecidableEq κ] (key : β → κ) (l : List β) :
    List (κ × List β) :=
  l.foldl (fun acc b => insertGrouped acc (key b) b) []

/-- Mean and squared SEM of one group of `"value"` cells, exactly as
`agg(mean=..., sem=lambda x: x.std(ddof=1) / np.sqrt(len(x)))`. -/
def aggGroup (vs : List ℚ) : ℚ × Option ℚ :=
  let n := vs.length
  let m := listMean vs
  (m, if n ≤ 1 then none
      else some (((vs.map (fun v => (v - m) ^ 2)).sum / (n - 1 : ℚ)) / n))

/-- The aggregation branch of `average_sweeps`, factored through the three
columns it reads (`stim_intensity`, `time`, `"value"`). -/
def aggregatedOf (proj : List (ℚ × ℚ × ℚ)) : List AvgRow :=
  List.insertionSort avgKeyLe
    ((groupByKey (fun p => (p.1, p.2.1)) proj).map (fun g =>
      let (m, s) := aggGroup (g.2.map (·.2.2))
      { stim_intensity := g.1.1, time := g.1.2, mean := m, semSq := s }))

/-- The only data the aggregation branch of `average_sweeps` reads: the
`stim_intensity`/`time` keys and the `"value"` cells (`none` when the
frame has no `"value"` column). -/
def valueProj (tbl : TidyTable) : Option (List (ℚ × ℚ × ℚ)) :=
  (tbl.cols.findIdx? (fun c => c = "value")).map
    (fun vi => tbl.rows.map (fun r => (r.stim_intensity, r.time, r.cell vi)))

/-- `average_sweeps(context)` acting on the tidy frame.  The
`stim_intensity`/`time` presence check of the source is vacuous here
because the embedding types those two columns; the `tidy is None` guard is
likewise unrepresentable (a table is always present). -/
def average_sweeps (tbl : TidyTable) : Except PipelineError AveragedTable :=
  if tbl.rows = [] then .ok (.passthrough tbl)
  else if "mean" ∈ tbl.cols then
    .ok (.passthrough { tbl with rows := sortTidyRows tbl.rows })
  else match tbl.cols.findIdx? (fun c => c = "value") with
    | none => .error .missingValueColumn
    | some vi =>
      .ok (.aggregated (aggregatedOf
        (tbl.rows.map (fun r => (r.stim_intensity, r.time, r.cell vi)))))

/-! ## Features (`features/fiber_volley.py`, `features/pop_spike.py`)

The features consume `context.averaged` grouped by `stim_intensity`,
reading the `time` and `mean` columns; `AvgRow` above is exactly that
schema.  All claims are settled for features whose resolved smoothing
method is `"none"`: `Feature.apply_smoothing` (features/base.py) then
returns the trace unchanged, which `applySmoothingNone` records.  The
scipy filter branches of the other methods are not exercised by any
claim. -/

/-- `Feature.apply_smoothing` with `cfg.method == "none"`. -/
def applySmoothingNone (y : List ℚ) : List ℚ := y

/-- Ascending distinct stimulus intensities:
`abf_df.groupby("stim_intensity")` visits groups in sorted key order. -/
def sortedStims (tbl : List AvgRow) : List ℚ :=
  List.insertionSort (fun a b => a ≤ b) (tbl.map (·.stim_intensity)).dedup

/-- The rows of one stimulus-intensity group, in table order. -/
def stimGroup (tbl : List AvgRow) (s : ℚ) : List AvgRow :=
  tbl.filter (fun r => decide (r.stim_intensity = s))

/-- One result row of `FiberVolleyFeature.calculate`; `none` models the
`np.nan` sentinel of a missing detection. -/
structure FvRow where
  stim_intensity : ℚ
  fv_amp : Option ℚ
  fv_max_s : Option ℚ
  fv_max_v : Option ℚ
  fv_min_s : Option ℚ
  fv_min_v : Option ℚ
  deriving DecidableEq, Repr

/-- The loop body of `FiberVolleyFeature.calculate` for one intensity
group `g`.  Notes tied to the source:

* `find_peaks(-y_w)` is called *without* a `prominence` argument, so the
  returned scipy `properties` dict never holds a `"prominences"` key; the
  `if "prominences" in neg_props` branch is dead and the trough is always
  `neg_peaks[np.argmin(y_w[neg_peaks])]`.
* `fv_max_idx` comes from the two most prominent peaks of the windowed
  derivative; when no trough was found on `-y_w`, the lower of those two
  also becomes `fv_min_idx`.
* `fv_amp = abs(fv_max_v - fv_min_v)` and is NaN (`none`) unless both
  extrema were found. -/
def fvWindowStart (w : ℚ × ℚ) (g : List AvgRow) : Nat :=
  searchsorted (g.map (·.time)) (w.1 / 1000)

def fvWindowStop (w : ℚ × ℚ) (g : List AvgRow) : Nat :=
  searchsorted (g.map (·.time)) (w.2 / 1000)

/-- `y_w = y[start_idx:stop_idx]` of the fiber-volley loop body. -/
def fvWindow (w : ℚ × ℚ) (g : List AvgRow) : List ℚ :=
  slice (applySmoothingNone (g.map (·.mean))) (fvWindowStart w g) (fvWindowStop w g)

/-- `dy_w = dy[start_idx:stop_idx]` with `dy = gradient(y, x)`. -/
def fvDyWindow (w : ℚ × ℚ) (g : List AvgRow) : List ℚ :=
  slice (npGradient (applySmoothingNone (g.map (·.mean))) (g.map (·.time)))
    (fvWindowStart w g) (fvWindowStop w g)

/-- `neg_peaks, neg_props = find_peaks(-y_w)`. -/
def fvNegPeaks (w : ℚ × ℚ) (g : List AvgRow) : List Nat :=
  findPeaks (((fvWindow w g).map (fun v => -v)).toArray)

/-- `dy_peaks, _ = find_peaks(dy_w)`. -/
def fvDyPeaks (w : ℚ × ℚ) (g : List AvgRow) : List Nat :=
  findPeaks (fvDyWindow w g).toArray

/-- The loop body of `FiberVolleyFeature.calculate` for one intensity
group `g`.  Notes tied to the source:

* `find_peaks(-y_w)` is called *without* a `prominence` argument, so the
  returned scipy `properties` dict never holds a `"prominences"` key; the
  `if "prominences" in neg_props` branch is dead and the trough is always
  `neg_peaks[np.argmin(y_w[neg_peaks])]`.
* `fv_max_idx` comes from the two most prominent peaks of the windowed
  derivative; when no trough was found on `-y_w`, the lower of those two
  also becomes `fv_min_idx`.
* `fv_amp = abs(fv_max_v - fv_min_v)` and is NaN (`none`) unless both
  extrema were found. -/
def fiberVolleyRow (windowMs : ℚ × ℚ) (stim : ℚ) (g : List AvgRow) : FvRow :=
  let x := g.map (·.time)
  let y := applySmoothingNone (g.map (·.mean))
  let startIdx := fvWindowStart windowMs g
  let yW := fvWindow windowMs g
  let dyW := fvDyWindow windowMs g
  let negPeaks := fvNegPeaks windowMs g
  let fvMin₀ : Option Nat :=
    if negPeaks.isEmpty then none
    else some (startIdx + negPeaks.getD (argmin (negPeaks.map (fun p => yW.getD p 0))) 0)
  let dyPeaks := fvDyPeaks windowMs g
  let state : Option Nat × Option Nat :=
    if 2 ≤ dyPeaks.length then
      let prom := dyPeaks.map (prominence dyW.toArray)
      let top2Rel := ((argsort prom).drop (prom.length - 2)).map (fun pos => dyPeaks.getD pos 0)
      let abs2 := top2Rel.map (fun rel => startIdx + rel)
      let fvMax := abs2.getD (argmax (abs2.map (fun i => y.getD i 0))) 0
      (some fvMax,
        if fvMin₀.isNone then
          some (abs2.getD (argmin (abs2.map (fun i => y.getD i 0))) 0)
        else fvMin₀)
    else (none, fvMin₀)
  let fvMaxIdx := state.1
  let fvMinIdx := state.2
  let fvMinS := fvMinIdx.map (fun i => x.getD i 0)
  let fvMinV := fvMinIdx.map (fun i => y.getD i 0)
  let fvMaxS := fvMaxIdx.map (fun i => x.getD i 0)
  let fvMaxV := fvMaxIdx.map (fun i => y.getD i 0)
  let fvAmp := match fvMaxV, fvMinV with
    | some a, some b => some |a - b|
    | _, _ => none
  { stim_intensity := stim, fv_amp := fvAmp,
    fv_max_s := fvMaxS, fv_max_v := fvMaxV,
    fv_min_s := fvMinS, fv_min_v := fvMinV }

/-- `FiberVolleyFeature.calculate`: the row loop over the sorted intensity
groups of the averaged table. -/
def fiberVolley_calculate (windowMs : ℚ × ℚ) (tbl : List AvgRow) : List FvRow :=
  (sortedStims tbl).map (fun s => fiberVolleyRow windowMs s (stimGroup tbl s))

/-- One row of the EPSP feature's result, as read by
`PopSpikeFeature.calculate` (`epsp_s`, `epsp_v`; the other columns are not
consumed).  `epsp_v` is `Option` because `np.isfinite(epsp_v)` is checked
before it is used. -/
structure EpspRow where
  stim_intensity : ℚ
  epsp_s : ℚ
  epsp_v : Option ℚ
  deriving DecidableEq, Repr

/-- One result row of `PopSpikeFeature.calculate`. -/
structure PsRow where
  stim_intensity : ℚ
  ps_amp : Option ℚ
  ps_s : Option ℚ
  ps_v : Option ℚ
  deriving DecidableEq, Repr

/-- The parameters dict as read by `PopSpikeFeature.__init__` through
`params.get(...)`: absent keys read as `None`. -/
structure PopSpikeParams where
  lag_ms : Option ℚ
  prominence : Option ℚ
  threshold : Option ℚ
  deriving DecidableEq, Repr

/-- A constructed `PopSpikeFeature`: all three parameters present. -/
structure PopSpike where
  lag_ms : ℚ
  prominence : ℚ
  threshold : ℚ
  deriving DecidableEq, Repr

/-- `PopSpikeFeature.__init__`: collects the parameters whose value is
`None` and raises `ValueError` naming them when any is missing — note the
source requires all three of `lag_ms`, `prominence`, `threshold`. -/
def popSpikeInit (p : PopSpikeParams) : Except PipelineError PopSpike :=
  let missing :=
    ([("lag_ms", p.lag_ms), ("prominence", p.prominence),
      ("threshold", p.threshold)].filterMap
      (fun kv => if kv.2.isNone then some kv.1 else none))
  if missing.isEmpty then
    match p with
    | ⟨some l, some pr, some th⟩ => .ok ⟨l, pr, th⟩
    | _ => .error (.missingParameter missing)
  else .error (.missingParameter missing)

def psWindowStart (g : List AvgRow) (er : EpspRow) : Nat :=
  searchsorted (g.map (·.time)) er.epsp_s

def psWindowStop (f : PopSpike) (g : List AvgRow) (er : EpspRow) : Nat :=
  searchsorted (g.map (·.time)) (er.epsp_s + f.lag_ms / 1000)

/-- `y_w = y[start_idx:stop_idx]` of the population-spike loop body. -/
def psWindow (f : PopSpike) (g : List AvgRow) (er : EpspRow) : List ℚ :=
  slice (applySmoothingNone (g.map (·.mean))) (psWindowStart g er) (psWindowStop f g er)

/-- `pos_peaks, _ = find_peaks(y_w, prominence=self.prominence)`. -/
def psPosPeaks (f : PopSpike) (g : List AvgRow) (er : EpspRow) : List Nat :=
  findPeaksProm (psWindow f g er).toArray f.prominence

/-- The loop body of `PopSpikeFeature.calculate` for one intensity group:
window `[epsp_s, epsp_s + lag_ms/1000)` located by `searchsorted`; primary
path takes the prominent positive peaks and selects the one of maximal
*value*; the fallback looks for a derivative hump; `ps_amp` is the direct
difference `abs(epsp_v - ps_v)`.  `.loc[...].iloc[0]` raises `IndexError`
when the EPSP frame has no row for this intensity. -/
def popSpikeRow (f : PopSpike) (stim : ℚ) (g : List AvgRow)
    (epspDf : List EpspRow) : Except PipelineError PsRow :=
  let x := g.map (·.time)
  let y := applySmoothingNone (g.map (·.mean))
  match epspDf.find? (fun r => decide (r.stim_intensity = stim)) with
  | none => .error .indexError
  | some er =>
    let startIdx := psWindowStart g er
    let stopIdx := psWindowStop f g er
    let dy := npGradient y x
    let yW := psWindow f g er
    let dyW := slice dy startIdx stopIdx
    let posPeaks := psPosPeaks f g er
    let psIdx : Option Nat :=
      if ¬ posPeaks.isEmpty then
        some (startIdx + posPeaks.getD (argmax (posPeaks.map (fun p => yW.getD p 0))) 0)
      else
        let slopePeaks := findPeaks dyW.toArray
        if ¬ slopePeaks.isEmpty then
          let psStart := slopePeaks.getD (argmax (slopePeaks.map (fun p => dyW.getD p 0))) 0
          let zs := (List.range dyW.length).filter (fun i => decide (|dyW.getD i 0| < f.threshold))
          let zs := zs.filter (fun i => decide (psStart < i))
          if ¬ zs.isEmpty then
            let psEnd := zs.getD (argmin (zs.map (fun i => |dyW.getD i 0|))) 0
            let j := psStart + argmax (slice yW psStart (psEnd + 1))
            if f.prominence ≤ yW.getD j 0 - yW.getD psStart 0 then
              some (startIdx + j)
            else none
          else none
        else none
    .ok (match psIdx with
      | none => { stim_intensity := stim, ps_amp := none, ps_s := none, ps_v := none }
      | some idx =>
        { stim_intensity := stim
          ps_amp := er.epsp_v.map (fun ev => |ev - y.getD idx 0|)
          ps_s := some (x.getD idx 0)
          ps_v := some (y.getD idx 0) })

/-- `PopSpikeFeature.calculate`: the row loop over the sorted intensity
groups of the averaged table. -/
def popSpike_calculate (f : PopSpike) (tbl : List AvgRow)
    (epspDf : List EpspRow) : Except PipelineError (List PsRow) :=
  (sortedStims tbl).mapM (fun s => popSpikeRow f s (stimGroup tbl s) epspDf)

/-! ## Recording context and `PopSpikeFeature.run` -/

/-- A feature result frame held in `context.results`. -/
inductive ResultDF where
  | epspDF (rows : List EpspRow)
  | fvDF (rows : List FvRow)
  | psDF (rows : List PsRow)
  deriving DecidableEq, Repr

/-- `df.empty`. -/
def ResultDF.isEmpty : ResultDF → Bool
  | .epspDF rows => rows.isEmpty
  | .fvDF rows => rows.isEmpty
  | .psDF rows => rows.isEmpty

/-- The slice of `RecordingContext` (core/context.py) that the verified
feature paths touch: the averaged table, the sampling rate, and the
name-keyed result mapping. -/
structure RecordingContext where
  averaged : List AvgRow
  fs : Option ℚ
  results : List (String × ResultDF)
  deriving DecidableEq, Repr

/-- `context.get_result(name)`: `results.get(name, None)`. -/
def RecordingContext.get_result (ctx : RecordingContext) (name : String) :
    Option ResultDF :=
  ctx.results.lookup name

/-- `results[name] = df`: replace an existing binding or append. -/
def setResult : List (String × ResultDF) → String → ResultDF →
    List (String × ResultDF)
  | [], n, d => [(n, d)]
  | (k, v) :: rest, n, d =>
    if k = n then (n, d) :: rest else (k, v) :: setResult rest n d

/-- `context.add_result(name, df)`. -/
def RecordingContext.add_result (ctx : RecordingContext) (name : String)
    (df : ResultDF) : RecordingContext :=
  { ctx with results := setResult ctx.results name df }

/-- `PopSpikeFeature.run`: requires a non-`None`, non-empty `"epsp"`
result before anything is calculated, then attaches the computed frame
under the feature's registry name `"pop_spike"`.  A frame of the wrong
shape stored under `"epsp"` would make `calculate` fail on the missing
columns (unreachable in the pipeline, where only `EPSPFeature` writes that
key); it is mapped to `indexError`. -/
def PopSpike.run (f : PopSpike) (ctx : RecordingContext) :
    Except PipelineError RecordingContext :=
  match ctx.get_result "epsp" with
  | none => .error .missingDependency
  | some df =>
    if df.isEmpty then .error .missingDependency
    else match df with
      | .epspDF rows =>
        (popSpike_calculate f ctx.averaged rows).map
          (fun ps => ctx.add_result "pop_spike" (.psDF ps))
      | _ => .error .indexError

/-! ## Concrete fixtures

Small synthetic recordings exercising the algorithms at hand-checked
inputs; the witness and counterexample theorems below evaluate the
embedding on them.  Traces are sampled at 1 kHz (`time = i/1000` s). -/

/-- An averaged trace from a list of mean voltages on the 1 kHz grid. -/
def traceOf (ys : List ℚ) : List AvgRow :=
  ys.enum.map (fun p =>
    { stim_intensity := 1, time := (p.1 : ℚ) / 1000, mean := p.2, semSq := none })

/-- Two equal-depth troughs (−5 mV at 1 ms and 3 ms) inside a `(0, 5)` ms
window; on `-y` their prominences are 1 and 5 (the barrier at −4 mV cuts
the first trough's base), so they tie in depth but not in prominence. -/
def fvTieTrace : List AvgRow := traceOf [-4, -5, 0, -5, 0, 1, 1, 1]

/-- A single trough of −5 mV at 1 ms; the windowed derivative has two
peaks (prominences 1750 and 250), so the positive extremum is found and
`fv_amp = |fv_max_v - fv_min_v| = 1/2`, not `|-5| = 5`. -/
def fvAmpTrace : List AvgRow := traceOf [0, -5, 4, -9/2, 7, -2, 0, 0]

/-- A strictly rising trace: no trough exists in the `(0, 5)` ms window,
yet the windowed derivative has two peaks (prominences 250 and 125), so
the two-derivative-peak fallback still fills in both extrema. -/
def fvFallbackTrace : List AvgRow := traceOf [0, 3/2, 5, 6, 21/2, 45/4, 12, 13]

/-- Population-spike trace: with the EPSP minimum at 1 ms and a 6 ms lag
the search window holds `[9, 0, 5, 0, 10, 19/2]`, whose peaks sit at
window offsets 2 and 4 with prominences 5 and 1/2: the *tallest* peak (at
4 ms + 1 ms) is not the most prominent one (at 2 ms + 1 ms). -/
def psApexTrace : List AvgRow := traceOf [0, 9, 0, 5, 0, 10, 19/2, 0]

/-- `PopSpikeFeature(lag_ms=6, prominence=1/2, threshold=1)`. -/
def psFeature : PopSpike := ⟨6, 1/2, 1⟩

/-- The upstream EPSP row for `psApexTrace`: minimum −1 mV at 1 ms. -/
def psEpspRow : EpspRow := ⟨1, 1/1000, some (-1)⟩

/-- One three-sample sweep (0, 1, 2 ms) of a single partition. -/
def cropTrace : List SweepRow :=
  [⟨1, 1, 1, 0, 10⟩, ⟨1, 1, 1, 1/1000, 11⟩, ⟨1, 1, 1, 2/1000, 12⟩]

/-- A one-intensity group of two sweeps whose voltages cancel at `t = 0`
(the only sample of the `(0, 1)` ms artifact window), so the template is
all-zero there and the energy guard triggers. -/
def templateZeroGroup : List SweepRow :=
  [⟨1, 1, 1, 0, 2⟩, ⟨1, 1, 1, 1/1000, 3⟩, ⟨1, 2, 2, 0, -2⟩, ⟨1, 2, 2, 1/1000, 3⟩]

/-- The spec's averaging fixture: three sweeps at one intensity and one
time point with voltages 1, 2, 3 in the `"value"` column. -/
def avgFixture : TidyTable :=
  ⟨["value"], [⟨5, 1/100, [1]⟩, ⟨5, 1/100, [2]⟩, ⟨5, 1/100, [3]⟩]⟩

/-- A loader-shaped table: the same numbers, but in a column named
`"voltage"` as `load_abf_to_context` produces. -/
def voltageFixture : TidyTable :=
  ⟨["voltage"], [⟨5, 1/100, [1]⟩, ⟨5, 1/100, [2]⟩, ⟨5, 1/100, [3]⟩]⟩

/-- A pre-averaged table (has a `"mean"` column), out of key order. -/
def meanFixture : TidyTable :=
  ⟨["mean", "sem"], [⟨7, 1/100, [4, 0]⟩, ⟨5, 1/100, [2, 0]⟩]⟩

/-- Tables with identical `"value"` cells but different `"voltage"`
cells: averaging must not distinguish them. -/
def valueVoltageFixtureA : TidyTable :=
  ⟨["value", "voltage"], [⟨5, 1/100, [1, 100]⟩, ⟨5, 1/100, [2, 200]⟩]⟩

def valueVoltageFixtureB : TidyTable :=
  ⟨["value", "voltage"], [⟨5, 1/100, [1, -7]⟩, ⟨5, 1/100, [2, 42]⟩]⟩

/-- A context with no `"epsp"` result. -/
def ctxNoEpsp : RecordingContext := ⟨psApexTrace, some 1000, []⟩

/-- A context whose `"epsp"` result is an empty frame. -/
def ctxEmptyEpsp : RecordingContext :=
  ⟨psApexTrace, some 1000, [("epsp", .epspDF [])]⟩

/-! ## Helper lemmas: list access -/

theorem getD_map_of_lt {α β : Type} (f : α → β) (l : List α) (i : Nat)
    (dα : α) (dβ : β) (h : i < l.length) :
    (l.map f).getD i dβ = f (l.getD i dα) := by
  induction l generalizing i with
  | nil => simp at h
  | cons a l ih =>
    cases i with
    | zero => simp
    | succ i => simpa using ih i (by simpa using h)

theorem getD_mem {α : Type} (l : List α) (i : Nat) (d : α)
    (h : i < l.length) : l.getD i d ∈ l := by
  induction l generalizing i with
  | nil => simp at h
  | cons a l ih =>
    cases i with
    | zero => simp
    | succ i => simpa using Or.inr (ih i (by simpa using h))

theorem getD_slice (y : List ℚ) (s e i : Nat) (h : i < (slice y s e).length) :
    (slice y s e).getD i 0 = y.getD (s + i) 0 := by
  have hlen : (slice y s e).length = min (e - s) (y.length - s) := by
    simp [slice]
  have hi : i < y.length - s := lt_of_lt_of_le (hlen ▸ h) (by omega)
  have hsy : s + i < y.length := by omega
  have hdrop : i < (y.drop s).length := by simpa using hi
  have hie : i < e - s := lt_of_lt_of_le (hlen ▸ h) (by omega)
  calc (slice y s e).getD i 0 = (y.drop s).getD i 0 := by
        simp only [slice]
        rw [List.getD_eq_getElem?_getD, List.getD_eq_getElem?_getD,
          List.getElem?_take_of_lt hie]
    _ = y.getD (s + i) 0 := by
        rw [List.getD_eq_getElem?_getD, List.getD_eq_getElem?_getD,
          List.getElem?_drop]

/-! ## Helper lemmas: `argmin` / `argmax` -/

theorem argminAux_spec (f : Nat → ℚ) (vs : List ℚ) :
    ∀ (bi i : Nat) (bv : ℚ), bi < i → f bi = bv →
      (∀ j, j < vs.length → f (i + j) = vs.getD j 0) →
      (argminAux bi bv i vs = bi ∨
        ∃ j, j < vs.length ∧ argminAux bi bv i vs = i + j) ∧
      f (argminAux bi bv i vs) ≤ bv ∧
      (∀ j, j < vs.length → f (argminAux bi bv i vs) ≤ f (i + j)) ∧
      (argminAux bi bv i vs ≠ bi → f (argminAux bi bv i vs) < bv) ∧
      (∀ j, j < vs.length → i + j < argminAux bi bv i vs →
        f (argminAux bi bv i vs) < f (i + j)) := by
  induction vs with
  | nil =>
    intro bi i bv _ hf _
    refine ⟨Or.inl rfl, ?_, ?_, ?_, ?_⟩ <;>
      simp [argminAux, hf]
  | cons v vs ih =>
    intro bi i bv hbi hf hvals
    have hv0 : f i = v := by simpa using hvals 0 (by simp)
    have hvalss : ∀ j, j < vs.length → f (i + 1 + j) = vs.getD j 0 := by
      intro j hj
      have h1 := hvals (j + 1) (by simpa using Nat.succ_lt_succ hj)
      rw [show i + 1 + j = i + (j + 1) from by omega]
      simpa using h1
    by_cases hlt : v < bv
    · have h := ih i (i + 1) v (Nat.lt_succ_self i) hv0 hvalss
      obtain ⟨hcase, hle, hall, hstrict, hearlier⟩ := h
      have heq : argminAux bi bv i (v :: vs) = argminAux i v (i + 1) vs := by
        simp [argminAux, hlt]
      rw [heq]
      refine ⟨?_, ?_, ?_, ?_, ?_⟩
      · rcases hcase with h | ⟨j, hj, hjeq⟩
        · exact Or.inr ⟨0, by simp, by simpa using h⟩
        · exact Or.inr ⟨j + 1, by simpa using Nat.succ_lt_succ hj,
            by rw [hjeq]; omega⟩
      · exact le_of_lt (lt_of_le_of_lt hle hlt)
      · intro j hj
        cases j with
        | zero => simpa [hv0] using hle
        | succ j =>
          have h1 := hall j (by simpa using hj)
          rwa [show i + (j + 1) = i + 1 + j from by omega]
      · intro _
        exact lt_of_le_of_lt hle hlt
      · intro j hj hjlt
        cases j with
        | zero =>
          have hne : argminAux i v (i + 1) vs ≠ i := by
            intro hcontra
            rw [hcontra] at hjlt
            simp at hjlt
          simpa [hv0] using hstrict hne
        | succ j =>
          have h1 := hearlier j (by simpa using hj)
            (by rw [show i + 1 + j = i + (j + 1) from by omega]; exact hjlt)
          rwa [show i + (j + 1) = i + 1 + j from by omega]
    · have h := ih bi (i + 1) bv (Nat.lt_succ_of_lt hbi) hf hvalss
      obtain ⟨hcase, hle, hall, hstrict, hearlier⟩ := h
      have heq : argminAux bi bv i (v :: vs) = argminAux bi bv (i + 1) vs := by
        simp [argminAux, hlt]
      rw [heq]
      refine ⟨?_, hle, ?_, hstrict, ?_⟩
      · rcases hcase with h | ⟨j, hj, hjeq⟩
        · exact Or.inl h
        · exact Or.inr ⟨j + 1, by simpa using Nat.succ_lt_succ hj,
            by rw [hjeq]; omega⟩
      · intro j hj
        cases j with
        | zero =>
          calc f (argminAux bi bv (i + 1) vs) ≤ bv := hle
            _ ≤ v := le_of_not_lt hlt
            _ = f (i + 0) := by simp [hv0]
        | succ j =>
          have h1 := hall j (by simpa using hj)
          rwa [show i + (j + 1) = i + 1 + j from by omega]
      · intro j hj hjlt
        cases j with
        | zero =>
          have hne : argminAux bi bv (i + 1) vs ≠ bi := by
            intro hcontra
            rw [hcontra] at hjlt
            simp at hjlt
            omega
          calc f (argminAux bi bv (i + 1) vs) < bv := hstrict hne
            _ ≤ v := le_of_not_lt hlt
            _ = f (i + 0) := by simp [hv0]
        | succ j =>
          have h1 := hearlier j (by simpa using hj)
            (by rw [show i + 1 + j = i + (j + 1) from by omega]; exact hjlt)
          rwa [show i + (j + 1) = i + 1 + j from by omega]

/-- `np.argmin` selects the position of the first minimum. -/
theorem argmin_spec (l : List ℚ) (hl : l ≠ []) :
    argmin l < l.length ∧
    (∀ k, k < l.length → l.getD (argmin l) 0 ≤ l.getD k 0) ∧
    (∀ k, k < argmin l → l.getD (argmin l) 0 < l.getD k 0) := by
  match l, hl with
  | v :: vs, _ =>
    have h := argminAux_spec (fun k => (v :: vs).getD k 0) vs 0 1 v
      Nat.zero_lt_one (by simp)
      (fun j hj => by
        rw [Nat.add_comm]
        simp)
    obtain ⟨hcase, hle, hall, hstrict, hearlier⟩ := h
    have hargmin : argmin (v :: vs) = argminAux 0 v 1 vs := rfl
    rw [hargmin]
    refine ⟨?_, ?_, ?_⟩
    · rcases hcase with h | ⟨j, hj, hjeq⟩
      · simp [h]
      · rw [hjeq]; simp only [List.length_cons]; omega
    · intro k hk
      cases k with
      | zero => simpa using hle
      | succ k =>
        have := hall k (by simpa using hk)
        simpa [Nat.add_comm] using this
    · intro k hk
      cases k with
      | zero =>
        have hne : argminAux 0 v 1 vs ≠ 0 := by omega
        simpa using hstrict hne
      | succ k =>
        rcases hcase with h | ⟨j, hj, hjeq⟩
        · omega
        · have hklen : k < vs.length := by omega
          have := hearlier k hklen (by omega)
          simpa [Nat.add_comm] using this

/-! ## Helper lemmas: peak lists are ascending and in range -/

theorem plateauEnd_ge (y : Array ℚ) (iMax : Nat) (v : ℚ) :
    ∀ fuel j, j ≤ plateauEnd y iMax v fuel j := by
  intro fuel
  induction fuel with
  | zero => intro j; simp [plateauEnd]
  | succ fuel ih =>
    intro j
    simp only [plateauEnd]
    split
    · exact le_trans (Nat.le_succ j) (ih (j + 1))
    · exact le_refl j

theorem plateauEnd_le (y : Array ℚ) (iMax : Nat) (v : ℚ) :
    ∀ fuel j, j ≤ iMax → plateauEnd y iMax v fuel j ≤ iMax := by
  intro fuel
  induction fuel with
  | zero => intro j hj; simpa [plateauEnd] using hj
  | succ fuel ih =>
    intro j hj
    simp only [plateauEnd]
    split
    · next h => exact ih (j + 1) h.1
    · exact hj

theorem localMaximaAux_ascending (y : Array ℚ) :
    ∀ fuel i,
      (∀ p ∈ localMaximaAux y fuel i, i ≤ p ∧ p + 1 < y.size) ∧
      (localMaximaAux y fuel i).Chain' (· < ·) := by
  intro fuel
  induction fuel with
  | zero => intro i; simp [localMaximaAux]
  | succ fuel ih =>
    intro i
    simp only [localMaximaAux]
    split
    · next hi =>
      split
      · next _ =>
        set ia := plateauEnd y (y.size - 1) (y.getD i 0) y.size (i + 1) with hia
        have hge : i + 1 ≤ ia := plateauEnd_ge y (y.size - 1) (y.getD i 0) y.size (i + 1)
        have hle : ia ≤ y.size - 1 :=
          plateauEnd_le y (y.size - 1) (y.getD i 0) y.size (i + 1) (by omega)
        split
        · next _ =>
          obtain ⟨ihb, ihc⟩ := ih (ia + 1)
          constructor
          · intro p hp
            rcases List.mem_cons.mp hp with h | h
            · omega
            · have := ihb p h
              omega
          · rw [List.chain'_cons']
            refine ⟨?_, ihc⟩
            intro h hh
            have := ihb h (List.mem_of_mem_head? hh)
            omega
        · next _ =>
          obtain ⟨ihb, ihc⟩ := ih (i + 1)
          exact ⟨fun p hp => by have := ihb p hp; omega, ihc⟩
      · next _ =>
        obtain ⟨ihb, ihc⟩ := ih (i + 1)
        exact ⟨fun p hp => by have := ihb p hp; omega, ihc⟩
    · simp

/-- Peaks of `find_peaks` are interior indices, in strictly ascending
order. -/
theorem findPeaks_ascending (y : Array ℚ) :
    (∀ p ∈ findPeaks y, 1 ≤ p ∧ p + 1 < y.size) ∧
    (findPeaks y).Pairwise (· < ·) := by
  obtain ⟨hb, hc⟩ := localMaximaAux_ascending y y.size 1
  exact ⟨hb, List.chain'_iff_pairwise.mp hc⟩

theorem mem_getD_of_lt {α : Type} (l : List α) (d q : α) (hq : q ∈ l) :
    ∃ j, j < l.length ∧ l.getD j d = q := by
  obtain ⟨j, hj⟩ := List.mem_iff_get.mp hq
  refine ⟨j.1, j.2, ?_⟩
  rw [List.getD_eq_getElem?_getD, List.getElem?_eq_getElem j.2]
  simp [← hj, List.get_eq_getElem]

theorem pairwise_lt_getD (l : List Nat) (h : l.Pairwise (· < ·))
    (i j : Nat) (hij : i < j) (hj : j < l.length) :
    l.getD i 0 < l.getD j 0 := by
  have hi : i < l.length := lt_trans hij hj
  have := (List.pairwise_iff_get.mp h) ⟨i, hi⟩ ⟨j, hj⟩ hij
  rw [List.getD_eq_getElem?_getD, List.getElem?_eq_getElem hi,
    List.getD_eq_getElem?_getD, List.getElem?_eq_getElem hj]
  simpa [List.get_eq_getElem] using this

theorem argmaxAux_spec (f : Nat → ℚ) (vs : List ℚ) :
    ∀ (bi i : Nat) (bv : ℚ), bi < i → f bi = bv →
      (∀ j, j < vs.length → f (i + j) = vs.getD j 0) →
      (argmaxAux bi bv i vs = bi ∨
        ∃ j, j < vs.length ∧ argmaxAux bi bv i vs = i + j) ∧
      bv ≤ f (argmaxAux bi bv i vs) ∧
      (∀ j, j < vs.length → f (i + j) ≤ f (argmaxAux bi bv i vs)) ∧
      (argmaxAux bi bv i vs ≠ bi → bv < f (argmaxAux bi bv i vs)) ∧
      (∀ j, j < vs.length → i + j < argmaxAux bi bv i vs →
        f (i + j) < f (argmaxAux bi bv i vs)) := by
  induction vs with
  | nil =>
    intro bi i bv _ hf _
    refine ⟨Or.inl rfl, ?_, ?_, ?_, ?_⟩ <;>
      simp [argmaxAux, hf]
  | cons v vs ih =>
    intro bi i bv hbi hf hvals
    have hv0 : f i = v := by simpa using hvals 0 (by simp)
    have hvalss : ∀ j, j < vs.length → f (i + 1 + j) = vs.getD j 0 := by
      intro j hj
      have h1 := hvals (j + 1) (by simpa using Nat.succ_lt_succ hj)
      rw [show i + 1 + j = i + (j + 1) from by omega]
      simpa using h1
    by_cases hlt : bv < v
    · have h := ih i (i + 1) v (Nat.lt_succ_self i) hv0 hvalss
      obtain ⟨hcase, hle, hall, hstrict, hearlier⟩ := h
      have heq : argmaxAux bi bv i (v :: vs) = argmaxAux i v (i + 1) vs := by
        simp [argmaxAux, hlt]
      rw [heq]
      refine ⟨?_, ?_, ?_, ?_, ?_⟩
      · rcases hcase with h | ⟨j, hj, hjeq⟩
        · exact Or.inr ⟨0, by simp, by simpa using h⟩
        · exact Or.inr ⟨j + 1, by simpa using Nat.succ_lt_succ hj,
            by rw [hjeq]; omega⟩
      · exact le_of_lt (lt_of_lt_of_le hlt hle)
      · intro j hj
        cases j with
        | zero => simpa [hv0] using hle
        | succ j =>
          have h1 := hall j (by simpa using hj)
          rwa [show i + (j + 1) = i + 1 + j from by omega]
      · intro _
        exact lt_of_lt_of_le hlt hle
      · intro j hj hjlt
        cases j with
        | zero =>
          have hne : argmaxAux i v (i + 1) vs ≠ i := by
            intro hcontra
            rw [hcontra] at hjlt
            simp at hjlt
          simpa [hv0] using hstrict hne
        | succ j =>
          have h1 := hearlier j (by simpa using hj)
            (by rw [show i + 1 + j = i + (j + 1) from by omega]; exact hjlt)
          rwa [show i + (j + 1) = i + 1 + j from by omega]
    · have h := ih bi (i + 1) bv (Nat.lt_succ_of_lt hbi) hf hvalss
      obtain ⟨hcase, hle, hall, hstrict, hearlier⟩ := h
      have heq : argmaxAux bi bv i (v :: vs) = argmaxAux bi bv (i + 1) vs := by
        simp [argmaxAux, hlt]
      rw [heq]
      refine ⟨?_, hle, ?_, hstrict, ?_⟩
      · rcases hcase with h | ⟨j, hj, hjeq⟩
        · exact Or.inl h
        · exact Or.inr ⟨j + 1, by simpa using Nat.succ_lt_succ hj,
            by rw [hjeq]; omega⟩
      · intro j hj
        cases j with
        | zero =>
          calc f (i + 0) = v := by simp [hv0]
            _ ≤ bv := le_of_not_lt hlt
            _ ≤ f (argmaxAux bi bv (i + 1) vs) := hle
        | succ j =>
          have h1 := hall j (by simpa using hj)
          rwa [show i + (j + 1) = i + 1 + j from by omega]
      · intro j hj hjlt
        cases j with
        | zero =>
          have hne : argmaxAux bi bv (i + 1) vs ≠ bi := by
            intro hcontra
            rw [hcontra] at hjlt
            simp at hjlt
            omega
          calc f (i + 0) = v := by simp [hv0]
            _ ≤ bv := le_of_not_lt hlt
            _ < f (argmaxAux bi bv (i + 1) vs) := hstrict hne
        | succ j =>
          have h1 := hearlier j (by simpa using hj)
            (by rw [show i + 1 + j = i + (j + 1) from by omega]; exact hjlt)
          rwa [show i + (j + 1) = i + 1 + j from by omega]

/-- `np.argmax` selects the position of the first maximum;
see `argmin_spec`. -/
theorem argmax_spec (l : List ℚ) (hl : l ≠ []) :
    argmax l < l.length ∧
    (∀ k, k < l.length → l.getD k 0 ≤ l.getD (argmax l) 0) ∧
    (∀ k, k < argmax l → l.getD k 0 < l.getD (argmax l) 0) := by
  match l, hl with
  | v :: vs, _ =>
    have h := argmaxAux_spec (fun k => (v :: vs).getD k 0) vs 0 1 v
      Nat.zero_lt_one (by simp)
      (fun j hj => by
        rw [Nat.add_comm]
        simp)
    obtain ⟨hcase, hle, hall, hstrict, hearlier⟩ := h
    have hargmax : argmax (v :: vs) = argmaxAux 0 v 1 vs := rfl
    rw [hargmax]
    refine ⟨?_, ?_, ?_⟩
    · rcases hcase with h | ⟨j, hj, hjeq⟩
      · simp [h]
      · rw [hjeq]; simp only [List.length_cons]; omega
    · intro k hk
      cases k with
      | zero => simpa using hle
      | succ k =>
        have := hall k (by simpa using hk)
        simpa [Nat.add_comm] using this
    · intro k hk
      cases k with
      | zero =>
        have hne : argmaxAux 0 v 1 vs ≠ 0 := by omega
        simpa using hstrict hne
      | succ k =>
        rcases hcase with h | ⟨j, hj, _⟩
        · omega
        · have hklen : k < vs.length := by omega
          have := hearlier k hklen (by omega)
          simpa [Nat.add_comm] using this

/-! ## Helper lemmas: `crop_stim_artifact` -/

theorem cropGroup_def (t0 t1 : ℚ) (g : List SweepRow) :
    cropGroup t0 t1 g =
      ((sortByTime g).take (searchsorted ((sortByTime g).map (·.time)) t0) ++
       (sortByTime g).drop (searchsorted ((sortByTime g).map (·.time)) t1)).head?.map
        (fun r0 =>
          ((sortByTime g).take (searchsorted ((sortByTime g).map (·.time)) t0) ++
           (sortByTime g).drop (searchsorted ((sortByTime g).map (·.time)) t1)).map
            (fun r => { r with time := r.time - r0.time })) := rfl

/-- Cropping a partition only shifts times: every output row keeps the key
fields of an input row. -/
theorem cropGroup_mem (t0 t1 : ℚ) (g out : List SweepRow)
    (h : cropGroup t0 t1 g = some out) :
    ∀ r' ∈ out, ∃ r ∈ g, r'.stim_intensity = r.stim_intensity ∧
      r'.abf_sweep = r.abf_sweep := by
  rw [cropGroup_def] at h
  set cropped := (sortByTime g).take (searchsorted ((sortByTime g).map (·.time)) t0) ++
    (sortByTime g).drop (searchsorted ((sortByTime g).map (·.time)) t1) with hcr
  cases hc : cropped.head? with
  | none => rw [hc] at h; simp at h
  | some r0 =>
    rw [hc] at h
    simp only [Option.map_some', Option.some_inj] at h
    intro r' hr'
    rw [← h] at hr'
    obtain ⟨c, hcm, hfc⟩ := List.mem_map.mp hr'
    have hcs : c ∈ sortByTime g := by
      rcases List.mem_append.mp (hcr ▸ hcm) with h' | h'
      · exact (List.take_sublist _ _).mem h'
      · exact (List.drop_sublist _ _).mem h'
    have hcg : c ∈ g := (List.perm_insertionSort timeLe g).mem_iff.mp hcs
    exact ⟨c, hcg, by rw [← hfc], by rw [← hfc]⟩

/-- After cropping, the first remaining sample's time is exactly zero. -/
theorem cropGroup_head_time (t0 t1 : ℚ) (g out : List SweepRow)
    (h : cropGroup t0 t1 g = some out) (r0 : SweepRow)
    (hh : out.head? = some r0) : r0.time = 0 := by
  rw [cropGroup_def] at h
  set cropped := (sortByTime g).take (searchsorted ((sortByTime g).map (·.time)) t0) ++
    (sortByTime g).drop (searchsorted ((sortByTime g).map (·.time)) t1) with hcr
  cases hc : cropped with
  | nil => rw [hc] at h; simp at h
  | cons c0 rest =>
    rw [hc] at h
    simp only [List.head?_cons, Option.map_some', Option.some_inj] at h
    rw [← h] at hh
    simp only [List.map_cons, List.head?_cons, Option.some_inj] at hh
    rw [← hh]
    simp

/-- The output of a crop is still sorted by time (for a well-ordered
window). -/
theorem cropGroup_sorted (t0 t1 : ℚ) (hle : t0 ≤ t1) (g out : List SweepRow)
    (h : cropGroup t0 t1 g = some out) : out.Sorted timeLe := by
  rw [cropGroup_def] at h
  have hsg : (sortByTime g).Sorted timeLe := List.sorted_insertionSort timeLe g
  set sg := sortByTime g with hsgdef
  set s := searchsorted (sg.map (·.time)) t0 with hs
  set e := searchsorted (sg.map (·.time)) t1 with he
  have hse : s ≤ e := by
    rw [hs, he]
    exact List.countP_mono_left (fun v _ hv =>
      decide_eq_true (lt_of_lt_of_le (of_decide_eq_true hv) hle))
  have hsub : List.Sublist (sg.take s ++ sg.drop e) sg := by
    have h1 : sg.drop e = (sg.drop s).drop (e - s) := by
      rw [List.drop_drop]
      congr 1
      omega
    have h2 : List.Sublist (sg.take s ++ sg.drop e) (sg.take s ++ sg.drop s) := by
      rw [h1]
      exact List.Sublist.append_left (List.drop_sublist _ _) _
    simpa using h2
  have hcs : (sg.take s ++ sg.drop e).Sorted timeLe :=
    List.Pairwise.sublist hsub hsg
  cases hc : (sg.take s ++ sg.drop e).head? with
  | none => rw [hc] at h; simp at h
  | some r0 =>
    rw [hc] at h
    simp only [Option.map_some', Option.some_inj] at h
    rw [← h]
    refine List.Pairwise.map _ ?_ hcs
    intro a b hab
    exact sub_le_sub_right hab _

/-- A successful `mapM` over `Option` succeeds on every key. -/
theorem mapM_option_mem {κ β : Type} (f : κ → Option β) :
    ∀ (ks : List κ) (bls : List β), ks.mapM f = some bls →
      ∀ k ∈ ks, ∃ b, f k = some b := by
  intro ks
  induction ks with
  | nil => intro bls _ k hk; simp at hk
  | cons k0 ks ih =>
    intro bls h k hk
    rw [List.mapM_cons] at h
    cases hfk : f k0 with
    | none => rw [hfk] at h; simp at h
    | some b0 =>
      cases hrest : ks.mapM f with
      | none => rw [hfk, hrest] at h; simp at h
      | some bs =>
        rcases List.mem_cons.mp hk with rfl | hk'
        · exact ⟨b0, hfk⟩
        · exact ih bs hrest k hk'

/-- Filtering the concatenated per-key blocks by one key recovers exactly
that key's block (keys distinct, blocks key-pure). -/
theorem mapM_flatten_filter {κ : Type} [DecidableEq κ] (key : SweepRow → κ)
    (f : κ → Option (List SweepRow))
    (hpure : ∀ k b, f k = some b → ∀ r ∈ b, key r = k) :
    ∀ (ks : List κ) (bls : List (List SweepRow)), ks.mapM f = some bls →
      (∀ k, k ∉ ks →
        (bls.flatten).filter (fun r => decide (key r = k)) = []) ∧
      (∀ k b, ks.Nodup → k ∈ ks → f k = some b →
        (bls.flatten).filter (fun r => decide (key r = k)) = b) := by
  intro ks
  induction ks with
  | nil =>
    intro bls h
    simp only [List.mapM_nil, pure] at h
    rw [Option.some_inj] at h
    constructor
    · intro k _; simp [← h]
    · intro k b _ hk; simp at hk
  | cons k0 ks ih =>
    intro bls h
    rw [List.mapM_cons] at h
    cases hfk : f k0 with
    | none => rw [hfk] at h; simp at h
    | some b0 =>
      cases hrest : ks.mapM f with
      | none => rw [hfk, hrest] at h; simp at h
      | some bs =>
        rw [hfk, hrest] at h
        simp at h
        subst h
        obtain ⟨ihnot, ihin⟩ := ih bs hrest
        have hb0 : ∀ r ∈ b0, key r = k0 := hpure k0 b0 hfk
        constructor
        · intro k hk
          have hk0 : k ≠ k0 := fun hc => hk (hc ▸ List.mem_cons_self _ _)
          have hkks : k ∉ ks := fun hc => hk (List.mem_cons_of_mem _ hc)
          simp only [List.flatten_cons, List.filter_append]
          rw [List.filter_eq_nil_iff.mpr
            (fun r hr => by simp [hb0 r hr, hk0.symm]), ihnot k hkks]
          simp
        · intro k b hnd hk hfkb
          simp only [List.flatten_cons, List.filter_append]
          rcases List.mem_cons.mp hk with rfl | hk'
          · have hbb : b = b0 := by
              rw [hfk] at hfkb
              exact (Option.some_inj.mp hfkb).symm
            have hknotks : k ∉ ks := (List.nodup_cons.mp hnd).1
            rw [List.filter_eq_self.mpr (fun r hr => by simp [hb0 r hr]),
              ihnot k hknotks, hbb]
            simp
          · have hk0 : k ≠ k0 := fun hc => by
              subst hc
              exact (List.nodup_cons.mp hnd).1 hk'
            rw [List.filter_eq_nil_iff.mpr
              (fun r hr => by simp [hb0 r hr, hk0.symm]),
              ihin k b (List.nodup_cons.mp hnd).2 hk' hfkb]
            simp

theorem sortedKeys_nodup (tbl : List SweepRow) : (sortedKeys tbl).Nodup :=
  ((List.perm_insertionSort lexLe _).nodup_iff).mpr (List.nodup_dedup _)

/-- Per-partition crops are key-pure: every row of
`cropGroup (partitionOf tbl k)` carries the key `k`. -/
theorem crop_partition_pure (t0 t1 : ℚ) (tbl : List SweepRow) :
    ∀ k b, cropGroup t0 t1 (partitionOf tbl k) = some b →
      ∀ r ∈ b, r.key = k := by
  intro k b hb r hr
  obtain ⟨r', hr', hstim, hsweep⟩ := cropGroup_mem _ _ _ _ hb r hr
  rw [partitionOf] at hr'
  have hk : r'.key = k := of_decide_eq_true (List.mem_filter.mp hr').2
  rw [SweepRow.key, hstim, hsweep, ← hk, SweepRow.key]

theorem crop_stim_artifact_def (w : ℚ × ℚ) (tbl : List SweepRow) :
    crop_stim_artifact w tbl =
      ((sortedKeys tbl).mapM
        (fun k => cropGroup (w.1/1000) (w.2/1000) (partitionOf tbl k))).map
        List.flatten := rfl

/-- Every partition of a successful whole-table crop is that partition's
own `cropGroup` output. -/
theorem crop_partitionOf (w : ℚ × ℚ) (tbl out : List SweepRow)
    (hout : crop_stim_artifact w tbl = some out) (k : ℚ × ℤ)
    (hk : partitionOf out k ≠ []) :
    cropGroup (w.1/1000) (w.2/1000) (partitionOf tbl k) =
      some (partitionOf out k) := by
  rw [crop_stim_artifact_def] at hout
  cases hm : (sortedKeys tbl).mapM
      (fun k => cropGroup (w.1/1000) (w.2/1000) (partitionOf tbl k)) with
  | none => rw [hm] at hout; simp at hout
  | some bls =>
    rw [hm] at hout
    simp only [Option.map_some', Option.some_inj] at hout
    obtain ⟨hnot, hin⟩ := mapM_flatten_filter SweepRow.key _
      (crop_partition_pure (w.1/1000) (w.2/1000) tbl) (sortedKeys tbl) bls hm
    by_cases hks : k ∈ sortedKeys tbl
    · obtain ⟨b, hb⟩ := mapM_option_mem _ (sortedKeys tbl) bls hm k hks
      have hfeq := hin k b (sortedKeys_nodup tbl) hks hb
      rw [hb, ← hout]
      simp only [partitionOf]
      rw [hfeq]
    · refine absurd ?_ hk
      rw [← hout]
      simp only [partitionOf]
      exact hnot k hks

/-- Counting below `t1` splits at `t0 ≤ t1` into counting below `t0` and
counting inside `[t0, t1)`. -/
theorem countP_split (l : List ℚ) (t0 t1 : ℚ) (h : t0 ≤ t1) :
    l.countP (fun v => decide (v < t1)) =
      l.countP (fun v => decide (v < t0)) +
      l.countP (fun v => decide (t0 ≤ v) && decide (v < t1)) := by
  induction l with
  | nil => simp
  | cons v l ih =>
    simp only [List.countP_cons, ih]
    by_cases h0 : v < t0
    · have h1 : v < t1 := lt_of_lt_of_le h0 h
      simp [h0, h1, not_le.mpr h0]
      omega
    · by_cases h1 : v < t1
      · simp [h0, h1, not_lt.mp h0]
        omega
      · simp [h0, h1]

/-- Re-applying `crop_group` to an already re-zeroed, time-sorted
partition is the identity exactly when no sample time lies in
`[t0, t1)`. -/
theorem cropGroup_fixed_iff (t0 t1 : ℚ) (ht : t0 ≤ t1) (p : List SweepRow)
    (hp : p ≠ []) (hsorted : p.Sorted timeLe)
    (h0 : ∀ r0, p.head? = some r0 → r0.time = 0) :
    (cropGroup t0 t1 p = some p ↔
      ∀ r ∈ p, ¬ (t0 ≤ r.time ∧ r.time < t1)) := by
  have hsort_eq : sortByTime p = p := List.Sorted.insertionSort_eq hsorted
  rw [cropGroup_def, hsort_eq]
  set x := p.map (·.time) with hx
  set s := searchsorted x t0 with hs
  set e := searchsorted x t1 with he
  have hse : s ≤ e := by
    rw [hs, he]
    exact List.countP_mono_left (fun v _ hv =>
      decide_eq_true (lt_of_lt_of_le (of_decide_eq_true hv) ht))
  have hsplit : e = s + x.countP (fun v => decide (t0 ≤ v) && decide (v < t1)) := by
    rw [hs, he, searchsorted, searchsorted]
    exact countP_split x t0 t1 ht
  have hlenx : x.length = p.length := by simp [hx]
  constructor
  · intro hfix r hr hrw
    have hmem : r.time ∈ x := by
      rw [hx]
      exact List.mem_map_of_mem _ hr
    have hpos : 0 < x.countP (fun v => decide (t0 ≤ v) && decide (v < t1)) :=
      List.countP_pos_iff.mpr ⟨r.time, hmem, by simp [hrw.1, hrw.2]⟩
    have hlen_e : e ≤ x.length := by
      rw [he, searchsorted]
      exact List.countP_le_length _
    have hclen : (p.take s ++ p.drop e).length < p.length := by
      simp only [List.length_append, List.length_take, List.length_drop]
      omega
    cases hc : (p.take s ++ p.drop e).head? with
    | none => rw [hc] at hfix; simp at hfix
    | some r0 =>
      rw [hc] at hfix
      simp only [Option.map_some', Option.some_inj] at hfix
      have hlen := congrArg List.length hfix
      simp only [List.length_map] at hlen
      omega
  · intro hno
    have hzero : x.countP (fun v => decide (t0 ≤ v) && decide (v < t1)) = 0 :=
      List.countP_eq_zero.mpr (fun v hv hvp => by
        rw [hx] at hv
        obtain ⟨r, hr, rfl⟩ := List.mem_map.mp hv
        simp only [Bool.and_eq_true, decide_eq_true_eq] at hvp
        exact hno r hr ⟨hvp.1, hvp.2⟩)
    have hes : e = s := by omega
    rw [hes, List.take_append_drop]
    obtain ⟨r0, rest, rfl⟩ : ∃ r0 rest, p = r0 :: rest := by
      cases p with
      | nil => exact absurd rfl hp
      | cons a l => exact ⟨a, l, rfl⟩
    have h00 : r0.time = 0 := h0 r0 (by simp)
    have hmap : (r0 :: rest).map
        (fun r => { r with time := r.time - r0.time }) = r0 :: rest := by
      rw [h00]
      have hid : ∀ r ∈ (r0 :: rest),
          ({ r with time := r.time - 0 } : SweepRow) = id r := by
        intro r _
        cases r
        simp
      rw [List.map_congr_left hid, List.map_id]
    rw [List.head?_cons, Option.map_some', hmap]

/-! ## Helper lemmas: fiber-volley trough selection -/

/-- When `-y_w` has peaks, the reported trough is
`neg_peaks[np.argmin(y_w[neg_peaks])]` (the dead `"prominences"` branch
never runs), whichever way the derivative-peak search goes. -/
theorem fiberVolleyRow_min_eq (w : ℚ × ℚ) (stim : ℚ) (g : List AvgRow)
    (hne : fvNegPeaks w g ≠ []) :
    (fiberVolleyRow w stim g).fv_min_s =
      some ((g.map (·.time)).getD (fvWindowStart w g +
        (fvNegPeaks w g).getD (argmin ((fvNegPeaks w g).map
          (fun q => (fvWindow w g).getD q 0))) 0) 0) ∧
    (fiberVolleyRow w stim g).fv_min_v =
      some ((applySmoothingNone (g.map (·.mean))).getD (fvWindowStart w g +
        (fvNegPeaks w g).getD (argmin ((fvNegPeaks w g).map
          (fun q => (fvWindow w g).getD q 0))) 0) 0) := by
  have h1 : (fvNegPeaks w g).isEmpty = false := by simpa using hne
  by_cases h2 : 2 ≤ (fvDyPeaks w g).length <;>
    simp [fiberVolleyRow, h1, h2]

/-! ## Claim C6: fiber-volley tie-break -/

unseal Rat.inv Rat.mul Rat.add Rat.sub in
/-- C6 counterexample: in `fvTieTrace` the `(0, 5)` ms window holds two
troughs of equal depth (−5 mV, window offsets 1 and 3) whose prominences
on `-y_w` differ (1 vs 5); the claim picks the higher-prominence trough at
3 ms, but the code reports the one at 1 ms (`np.argmin` takes the first of
the equal depths; prominences are never computed because `find_peaks` is
called without a `prominence` argument). -/
theorem fiber_volley_tie_cx :
    fvNegPeaks (0, 5) fvTieTrace = [1, 3] ∧
    (fvWindow (0, 5) fvTieTrace).getD 1 0 = (fvWindow (0, 5) fvTieTrace).getD 3 0 ∧
    prominence (((fvWindow (0, 5) fvTieTrace).map (fun v => -v)).toArray) 1 = 1 ∧
    prominence (((fvWindow (0, 5) fvTieTrace).map (fun v => -v)).toArray) 3 = 5 ∧
    (fiberVolleyRow (0, 5) 1 fvTieTrace).fv_min_s = some (1/1000) ∧
    (fvTieTrace.map (·.time)).getD (fvWindowStart (0, 5) fvTieTrace + 3) 0 = 3/1000 ∧
    ((1 : ℚ)/1000) ≠ 3/1000 := by
  refine ⟨by decide, by decide, by decide, by decide, by decide, by decide, by decide⟩

/-- C6 (amended): prominences are unavailable (the `find_peaks` call has
no `prominence` argument), so the most-negative-value tie-break always
applies: the selected trough minimises the windowed voltage over all
troughs, and among equal-depth troughs the *earliest* is selected —
not the more prominent one. -/
theorem fiber_volley_trough_selection (w : ℚ × ℚ) (stim : ℚ) (g : List AvgRow)
    (t : Nat) (hg : 2 ≤ g.length)
    (hne : fvNegPeaks w g ≠ [])
    (ht : t = (fvNegPeaks w g).getD (argmin ((fvNegPeaks w g).map
      (fun q => (fvWindow w g).getD q 0))) 0) :
    2 ≤ g.length ∧
    t ∈ fvNegPeaks w g ∧
    (fiberVolleyRow w stim g).fv_min_s =
      some ((g.map (·.time)).getD (fvWindowStart w g + t) 0) ∧
    (fiberVolleyRow w stim g).fv_min_v =
      some ((applySmoothingNone (g.map (·.mean))).getD (fvWindowStart w g + t) 0) ∧
    (∀ q ∈ fvNegPeaks w g,
      (fvWindow w g).getD t 0 ≤ (fvWindow w g).getD q 0) ∧
    (∀ q ∈ fvNegPeaks w g, q < t →
      (fvWindow w g).getD t 0 < (fvWindow w g).getD q 0) := by
  refine ⟨hg, ?_⟩
  clear hg
  set peaks := fvNegPeaks w g with hpeaks
  set yW := fvWindow w g with hyW
  set vals := peaks.map (fun q => yW.getD q 0) with hvals
  have hvne : vals ≠ [] := by
    rw [hvals]
    simpa using hne
  obtain ⟨hlt, hmin, hstrict⟩ := argmin_spec vals hvne
  have hlen : vals.length = peaks.length := by simp [hvals]
  have hklen : argmin vals < peaks.length := hlen ▸ hlt
  have htmem : t ∈ peaks := ht ▸ getD_mem peaks (argmin vals) 0 hklen
  have hvt : vals.getD (argmin vals) 0 = yW.getD t 0 := by
    rw [ht, hvals]
    exact getD_map_of_lt _ peaks (argmin vals) 0 0 hklen
  obtain ⟨hbound, hpair⟩ := findPeaks_ascending ((yW.map (fun v => -v)).toArray)
  refine ⟨htmem, (fiberVolleyRow_min_eq w stim g hne).1.trans (by rw [← ht]),
    (fiberVolleyRow_min_eq w stim g hne).2.trans (by rw [← ht]), ?_, ?_⟩
  · intro q hq
    obtain ⟨j, hj, hjq⟩ := mem_getD_of_lt peaks 0 q hq
    have := hmin j (hlen ▸ hj)
    rw [hvt] at this
    rw [← hjq, ← getD_map_of_lt (fun q => yW.getD q 0) peaks j 0 0 hj, ← hvals]
    exact this
  · intro q hq hqt
    obtain ⟨j, hj, hjq⟩ := mem_getD_of_lt peaks 0 q hq
    rcases lt_trichotomy j (argmin vals) with hjk | hjk | hjk
    · have := hstrict j hjk
      rw [hvt] at this
      rw [← hjq, ← getD_map_of_lt (fun q => yW.getD q 0) peaks j 0 0 hj, ← hvals]
      exact this
    · exact absurd (by rw [← hjq, hjk, ← ht]) (ne_of_lt hqt)
    · have hasc : peaks.getD (argmin vals) 0 < peaks.getD j 0 := by
        have : peaks.Pairwise (· < ·) := by
          rw [hpeaks, fvNegPeaks, hyW] at *
          exact hpair
        exact pairwise_lt_getD peaks this (argmin vals) j hjk hj
      rw [ht] at hqt
      rw [hjq] at hasc
      omega

unseal Rat.inv Rat.mul Rat.add Rat.sub in
/-- C6 witness: the amended selection rule evaluated on the tie fixture —
the trough at window offset 1 (time 1 ms, −5 mV) is selected. -/
theorem fiber_volley_trough_selection_witness :
    1 ∈ fvNegPeaks (0, 5) fvTieTrace ∧
    (fiberVolleyRow (0, 5) 1 fvTieTrace).fv_min_s = some (1/1000) ∧
    (fiberVolleyRow (0, 5) 1 fvTieTrace).fv_min_v = some (-5) := by
  obtain ⟨_, hmem, hs, hv, _, _⟩ := fiber_volley_trough_selection (0, 5) 1 fvTieTrace 1
    (by decide) (by decide) (by decide)
  exact ⟨hmem, hs.trans (by decide), hv.trans (by decide)⟩

/-! ## Claim C4: averaging — mean, SEM and ordering -/

unseal Rat.inv Rat.mul Rat.add Rat.sub in
/-- C4: `average_sweeps` groups by `(stim_intensity, time)` and computes
the arithmetic mean and the squared SEM `var(ddof=1)/n`; the spec fixture
(three sweeps with values 1, 2, 3) yields `mean = 2` and
`sem = √(1/3) = 1/√3`; and every aggregated output is sorted by
`(stim_intensity, time)`. -/
theorem average_sweeps_mean_sem :
    average_sweeps avgFixture =
      .ok (.aggregated [{ stim_intensity := 5, time := 1/100, mean := 2,
                          semSq := some (1/3) }]) ∧
    Real.sqrt ((1 : ℝ)/3) = 1 / Real.sqrt 3 ∧
    (∀ (tbl : TidyTable) (rows : List AvgRow),
      average_sweeps tbl = .ok (.aggregated rows) → rows.Sorted avgKeyLe) := by
  refine ⟨by decide, ?_, ?_⟩
  · rw [one_div, one_div, Real.sqrt_inv]
  · intro tbl rows h
    simp only [average_sweeps] at h
    split at h
    · simp at h
    · split at h
      · simp at h
      · split at h
        · simp at h
        · simp only [Except.ok.injEq, AveragedTable.aggregated.injEq] at h
          rw [← h]
          simp only [aggregatedOf]
          exact List.sorted_insertionSort _ _

unseal Rat.inv Rat.mul Rat.add Rat.sub in
/-- C4 witness: the sortedness clause instantiated at the concrete
aggregation of the spec fixture. -/
theorem average_sweeps_mean_sem_witness :
    ([{ stim_intensity := 5, time := 1/100, mean := 2,
        semSq := some (1/3) }] : List AvgRow).Sorted avgKeyLe :=
  average_sweeps_mean_sem.2.2 avgFixture _ (by decide)

/-! ## Claim C10: `average_sweeps` column handling -/

/-- C10: `average_sweeps` aggregates from the `"value"` column and fails
when it is absent — in particular it never reads a `"voltage"` column (its
output depends only on the keys and the `"value"` cells); with a `"mean"`
column present it returns the rows key-sorted without recomputing; and an
empty frame is passed through as an empty copy. -/
theorem average_sweeps_value_column :
    (∀ tbl : TidyTable, tbl.rows ≠ [] → "mean" ∉ tbl.cols →
      "value" ∉ tbl.cols →
      average_sweeps tbl = .error .missingValueColumn) ∧
    (∀ t1 t2 : TidyTable, t1.rows ≠ [] → t2.rows ≠ [] →
      "mean" ∉ t1.cols → "mean" ∉ t2.cols → valueProj t1 = valueProj t2 →
      average_sweeps t1 = average_sweeps t2) ∧
    (∀ tbl : TidyTable, tbl.rows ≠ [] → "mean" ∈ tbl.cols →
      average_sweeps tbl =
        .ok (.passthrough ⟨tbl.cols, sortTidyRows tbl.rows⟩) ∧
      (sortTidyRows tbl.rows).Perm tbl.rows) ∧
    (∀ tbl : TidyTable, tbl.rows = [] →
      average_sweeps tbl = .ok (.passthrough tbl)) := by
  refine ⟨?_, ?_, ?_, ?_⟩
  · intro tbl hrows hmean hvalue
    have hidx : tbl.cols.findIdx? (fun c => c = "value") = none :=
      List.findIdx?_eq_none_iff.mpr
        (fun c hc => decide_eq_false (fun he => hvalue (he ▸ hc)))
    simp [average_sweeps, hrows, hmean, hidx]
  · intro t1 t2 h1 h2 hm1 hm2 hproj
    simp only [valueProj] at hproj
    simp only [average_sweeps, h1, h2, hm1, hm2, if_false, if_neg]
    cases hi1 : t1.cols.findIdx? (fun c => c = "value") with
    | none =>
      cases hi2 : t2.cols.findIdx? (fun c => c = "value") with
      | none => simp [h1, h2, hm1, hm2]
      | some vi2 => rw [hi1, hi2] at hproj; simp at hproj
    | some vi1 =>
      cases hi2 : t2.cols.findIdx? (fun c => c = "value") with
      | none => rw [hi1, hi2] at hproj; simp at hproj
      | some vi2 =>
        rw [hi1, hi2] at hproj
        simp only [Option.map_some', Option.some_inj] at hproj
        simp [h1, h2, hm1, hm2, hi1, hi2, hproj]
  · intro tbl hrows hmean
    constructor
    · simp [average_sweeps, hrows, hmean]
    · exact List.perm_insertionSort _ _
  · intro tbl hrows
    simp [average_sweeps, hrows]

unseal Rat.inv Rat.mul Rat.add Rat.sub in
/-- C10 witness: all four behaviours at concrete frames — a loader-shaped
`"voltage"`-only frame errors, two frames differing only in `"voltage"`
average identically, a `"mean"` frame is key-sorted and passed through,
and an empty frame is copied. -/
theorem average_sweeps_value_column_witness :
    average_sweeps voltageFixture = .error .missingValueColumn ∧
    average_sweeps valueVoltageFixtureA = average_sweeps valueVoltageFixtureB ∧
    average_sweeps meanFixture =
      .ok (.passthrough ⟨meanFixture.cols, sortTidyRows meanFixture.rows⟩) ∧
    average_sweeps ⟨["value"], []⟩ = .ok (.passthrough ⟨["value"], []⟩) :=
  ⟨average_sweeps_value_column.1 voltageFixture (by decide) (by decide) (by decide),
   average_sweeps_value_column.2.1 valueVoltageFixtureA valueVoltageFixtureB
     (by decide) (by decide) (by decide) (by decide) (by decide),
   (average_sweeps_value_column.2.2.1 meanFixture (by decide) (by decide)).1,
   average_sweeps_value_column.2.2.2 ⟨["value"], []⟩ rfl⟩

/-! ## Claim C1: fiber-volley amplitude and missing-value behaviour -/

unseal Rat.inv Rat.mul Rat.add Rat.sub in
/-- C1 counterexample, in two parts.  On `fvAmpTrace` a trough exists at
−5 mV, but the reported amplitude is `|fv_max_v − fv_min_v| = 1/2`, not
`|voltage at the trough| = 5`.  On `fvFallbackTrace` *no* negative peak
exists in the window, yet the derivative-peak fallback still reports a
trough time/voltage and a non-NaN amplitude instead of the claimed NaN
row. -/
theorem fiber_volley_amp_cx :
    (fiberVolleyRow (0, 5) 1 fvAmpTrace).fv_min_v = some (-5) ∧
    (fiberVolleyRow (0, 5) 1 fvAmpTrace).fv_amp = some (1/2) ∧
    ((1 : ℚ)/2) ≠ |(-5 : ℚ)| ∧
    fvNegPeaks (0, 5) fvFallbackTrace = [] ∧
    (fiberVolleyRow (0, 5) 1 fvFallbackTrace).fv_min_s = some (1/1000) ∧
    (fiberVolleyRow (0, 5) 1 fvFallbackTrace).fv_amp = some (9/2) := by
  refine ⟨by decide, by decide, by decide, by decide, by decide, by decide⟩

/-- C1 (amended): for every intensity group, the fiber-volley row reports
amplitude `|fv_max_v − fv_min_v|` — the gap between the positive extremum
(taken from the two most prominent derivative peaks) and the trough — and
NaN (`none`) whenever either extremum is missing; the row is all-NaN
exactly when both the trough search on `-y_w` and the two-derivative-peak
method fail; and when no trough exists on `-y_w` but the derivative has
two peaks, the fallback still fills in trough, extremum and amplitude
(rather than reporting NaN). -/
theorem fiber_volley_row_amended (w : ℚ × ℚ) (stim : ℚ) (g : List AvgRow)
    (hg : 2 ≤ g.length) :
    2 ≤ g.length ∧
    ((fiberVolleyRow w stim g).fv_amp =
      match (fiberVolleyRow w stim g).fv_max_v,
            (fiberVolleyRow w stim g).fv_min_v with
      | some a, some b => some |a - b|
      | _, _ => none) ∧
    (fvNegPeaks w g = [] ∧ (fvDyPeaks w g).length < 2 →
      fiberVolleyRow w stim g =
        { stim_intensity := stim, fv_amp := none, fv_max_s := none,
          fv_max_v := none, fv_min_s := none, fv_min_v := none }) ∧
    ((fvDyPeaks w g).length < 2 →
      (fiberVolleyRow w stim g).fv_max_v = none) ∧
    (fvNegPeaks w g = [] → 2 ≤ (fvDyPeaks w g).length →
      (fiberVolleyRow w stim g).fv_min_v.isSome = true ∧
      (fiberVolleyRow w stim g).fv_max_v.isSome = true ∧
      (fiberVolleyRow w stim g).fv_amp.isSome = true) := by
  refine ⟨hg, ?_, ?_, ?_, ?_⟩
  · by_cases hne : (fvNegPeaks w g).isEmpty <;>
      by_cases h2 : 2 ≤ (fvDyPeaks w g).length <;>
        simp [fiberVolleyRow, hne, h2]
  · rintro ⟨hnil, hlt⟩
    have hne : (fvNegPeaks w g).isEmpty = true := by simp [hnil]
    have h2 : ¬ 2 ≤ (fvDyPeaks w g).length := by omega
    simp [fiberVolleyRow, hne, h2]
  · intro hlt
    have h2 : ¬ 2 ≤ (fvDyPeaks w g).length := by omega
    by_cases hne : (fvNegPeaks w g).isEmpty <;>
      simp [fiberVolleyRow, hne, h2]
  · intro hnil h2
    have hne : (fvNegPeaks w g).isEmpty = true := by simp [hnil]
    simp [fiberVolleyRow, hne, h2]

unseal Rat.inv Rat.mul Rat.add Rat.sub in
/-- C1 witness: on `fvAmpTrace` the extrema are −9/2 and −5 mV and the
amplitude is their absolute difference. -/
theorem fiber_volley_row_amended_witness :
    (fiberVolleyRow (0, 5) 1 fvAmpTrace).fv_max_v = some (-9/2) ∧
    (fiberVolleyRow (0, 5) 1 fvAmpTrace).fv_min_v = some (-5) ∧
    (fiberVolleyRow (0, 5) 1 fvAmpTrace).fv_amp = some |(-9/2 : ℚ) - (-5)| := by
  obtain ⟨_, hamp, _, _, _⟩ := fiber_volley_row_amended (0, 5) 1 fvAmpTrace (by decide)
  refine ⟨by decide, by decide, ?_⟩
  rw [hamp,
    (by decide : (fiberVolleyRow (0, 5) 1 fvAmpTrace).fv_max_v = some (-9/2)),
    (by decide : (fiberVolleyRow (0, 5) 1 fvAmpTrace).fv_min_v = some (-5))]

/-! ## Claim C2: population-spike apex selection and amplitude -/

/-- When prominent peaks exist in the window, the reported row is built at
`pos_peaks[np.argmax(y_w[pos_peaks])]` — the *tallest* prominent peak. -/
theorem popSpikeRow_primary_eq (f : PopSpike) (stim : ℚ) (g : List AvgRow)
    (epspDf : List EpspRow) (er : EpspRow)
    (hfind : epspDf.find? (fun r => decide (r.stim_intensity = stim)) = some er)
    (hne : psPosPeaks f g er ≠ []) :
    popSpikeRow f stim g epspDf = .ok
      { stim_intensity := stim
        ps_amp := er.epsp_v.map (fun ev =>
          |ev - (applySmoothingNone (g.map (·.mean))).getD
            (psWindowStart g er + (psPosPeaks f g er).getD
              (argmax ((psPosPeaks f g er).map
                (fun q => (psWindow f g er).getD q 0))) 0) 0|)
        ps_s := some ((g.map (·.time)).getD
          (psWindowStart g er + (psPosPeaks f g er).getD
            (argmax ((psPosPeaks f g er).map
              (fun q => (psWindow f g er).getD q 0))) 0) 0)
        ps_v := some ((applySmoothingNone (g.map (·.mean))).getD
          (psWindowStart g er + (psPosPeaks f g er).getD
            (argmax ((psPosPeaks f g er).map
              (fun q => (psWindow f g er).getD q 0))) 0) 0) } := by
  have h1 : (psPosPeaks f g er).isEmpty = false := by simpa using hne
  simp [popSpikeRow, hfind, h1]

unseal Rat.inv Rat.mul Rat.add Rat.sub in
/-- C2 counterexample: in `psApexTrace` the search window holds prominent
peaks at offsets 2 and 4 with prominences 5 and 1/2.  The claim's apex
(the maximum-prominence peak, offset 2, time 3 ms) differs from the code's
apex (the maximum-value peak, offset 4, time 5 ms); the code also reports
`ps_amp = |epsp_v − ps_v| = 11`, a direct difference with no baseline
interpolation. -/
theorem pop_spike_apex_cx :
    psPosPeaks psFeature psApexTrace psEpspRow = [2, 4] ∧
    prominence (psWindow psFeature psApexTrace psEpspRow).toArray 2 = 5 ∧
    prominence (psWindow psFeature psApexTrace psEpspRow).toArray 4 = 1/2 ∧
    popSpikeRow psFeature 1 psApexTrace [psEpspRow] =
      .ok { stim_intensity := 1, ps_amp := some 11,
            ps_s := some (1/200), ps_v := some 10 } ∧
    (psApexTrace.map (·.time)).getD
      (psWindowStart psApexTrace psEpspRow + 2) 0 = 3/1000 ∧
    ((1 : ℚ)/200) ≠ 3/1000 := by
  refine ⟨by decide, by decide, by decide, by decide, by decide, by decide⟩

/-- C2 (amended): for every intensity group with at least one positive
peak of prominence ≥ the configured `prominence` inside
`[epsp_time, epsp_time + lag_ms)`, the selected apex is the prominent peak
of maximal *voltage* (first among equals, not maximal prominence), and the
reported spike amplitude is the direct difference
`|epsp_v − apex voltage|` — no post-apex baseline anchor or interpolation
is involved. -/
theorem pop_spike_primary_path (f : PopSpike) (stim : ℚ) (g : List AvgRow)
    (epspDf : List EpspRow) (er : EpspRow) (p : Nat) (hg : 2 ≤ g.length)
    (hfind : epspDf.find? (fun r => decide (r.stim_intensity = stim)) = some er)
    (hne : psPosPeaks f g er ≠ [])
    (hp : p = (psPosPeaks f g er).getD
      (argmax ((psPosPeaks f g er).map
        (fun q => (psWindow f g er).getD q 0))) 0) :
    2 ≤ g.length ∧
    p ∈ psPosPeaks f g er ∧
    (∀ q ∈ psPosPeaks f g er,
      (psWindow f g er).getD q 0 ≤ (psWindow f g er).getD p 0) ∧
    (∀ q ∈ psPosPeaks f g er, q < p →
      (psWindow f g er).getD q 0 < (psWindow f g er).getD p 0) ∧
    popSpikeRow f stim g epspDf = .ok
      { stim_intensity := stim
        ps_amp := er.epsp_v.map (fun ev =>
          |ev - (applySmoothingNone (g.map (·.mean))).getD
            (psWindowStart g er + p) 0|)
        ps_s := some ((g.map (·.time)).getD (psWindowStart g er + p) 0)
        ps_v := some ((applySmoothingNone (g.map (·.mean))).getD
          (psWindowStart g er + p) 0) } := by
  refine ⟨hg, ?_⟩
  clear hg
  set peaks := psPosPeaks f g er with hpeaks
  set yW := psWindow f g er with hyW
  set vals := peaks.map (fun q => yW.getD q 0) with hvals
  have hvne : vals ≠ [] := by
    rw [hvals]
    simpa using hne
  obtain ⟨hlt, hmax, hstrict⟩ := argmax_spec vals hvne
  have hlen : vals.length = peaks.length := by simp [hvals]
  have hklen : argmax vals < peaks.length := hlen ▸ hlt
  have hpmem : p ∈ peaks := hp ▸ getD_mem peaks (argmax vals) 0 hklen
  have hvp : vals.getD (argmax vals) 0 = yW.getD p 0 := by
    rw [hp, hvals]
    exact getD_map_of_lt _ peaks (argmax vals) 0 0 hklen
  obtain ⟨hbound, hpair⟩ :=
    findPeaks_ascending (psWindow f g er).toArray
  refine ⟨hpmem, ?_, ?_, ?_⟩
  · intro q hq
    obtain ⟨j, hj, hjq⟩ := mem_getD_of_lt peaks 0 q hq
    have := hmax j (hlen ▸ hj)
    rw [hvp] at this
    rw [← hjq, ← getD_map_of_lt (fun q => yW.getD q 0) peaks j 0 0 hj, ← hvals]
    exact this
  · intro q hq hqp
    obtain ⟨j, hj, hjq⟩ := mem_getD_of_lt peaks 0 q hq
    rcases lt_trichotomy j (argmax vals) with hjk | hjk | hjk
    · have := hstrict j hjk
      rw [hvp] at this
      rw [← hjq, ← getD_map_of_lt (fun q => yW.getD q 0) peaks j 0 0 hj, ← hvals]
      exact this
    · exact absurd (by rw [← hjq, hjk, ← hp]) (ne_of_lt hqp)
    · have hpw : peaks.Pairwise (· < ·) := by
        rw [hpeaks, psPosPeaks, findPeaksProm]
        exact List.Pairwise.filter _ hpair
      have hasc : peaks.getD (argmax vals) 0 < peaks.getD j 0 :=
        pairwise_lt_getD peaks hpw (argmax vals) j hjk hj
      rw [hp] at hqp
      rw [hjq] at hasc
      omega
  · rw [hp]
    exact popSpikeRow_primary_eq f stim g epspDf er hfind hne

unseal Rat.inv Rat.mul Rat.add Rat.sub in
/-- C2 witness: the amended selection evaluated on `psApexTrace` — apex
at window offset 4, `ps_s = 5` ms, `ps_v = 10` mV, `ps_amp = 11` mV. -/
theorem pop_spike_primary_path_witness :
    4 ∈ psPosPeaks psFeature psApexTrace psEpspRow ∧
    popSpikeRow psFeature 1 psApexTrace [psEpspRow] =
      .ok { stim_intensity := 1, ps_amp := some 11,
            ps_s := some (1/200), ps_v := some 10 } := by
  obtain ⟨_, hmem, _, _, hrow⟩ := pop_spike_primary_path psFeature 1 psApexTrace
    [psEpspRow] psEpspRow 4 (by decide) (by decide) (by decide) (by decide)
  exact ⟨hmem, hrow.trans (by decide)⟩

/-! ## Claim C9: re-zeroing invariant of `crop_stim_artifact` -/

/-- C9: after `crop_stim_artifact`, the first remaining sample of every
nonempty `(stim_intensity, abf_sweep)` partition of the output has time
exactly `0`. -/
theorem crop_rezero_first_time (w : ℚ × ℚ) (tbl out : List SweepRow)
    (hout : crop_stim_artifact w tbl = some out) (k : ℚ × ℤ) (r0 : SweepRow)
    (hhead : (partitionOf out k).head? = some r0) :
    r0.time = 0 := by
  have hne : partitionOf out k ≠ [] := by
    intro hc
    rw [hc] at hhead
    simp at hhead
  exact cropGroup_head_time _ _ _ _ (crop_partitionOf w tbl out hout k hne) r0 hhead

unseal Rat.inv Rat.mul Rat.add Rat.sub in
/-- C9 witness: cropping the 3-sample fixture with the `(0, 1)` ms window
leaves a partition whose first sample sits at time `0`. -/
theorem crop_rezero_first_time_witness :
    crop_stim_artifact (0, 1) cropTrace =
      some [⟨1, 1, 1, 0, 11⟩, ⟨1, 1, 1, 1/1000, 12⟩] ∧
    (SweepRow.time ⟨1, 1, 1, 0, 11⟩) = 0 :=
  ⟨by decide,
   crop_rezero_first_time (0, 1) cropTrace
     [⟨1, 1, 1, 0, 11⟩, ⟨1, 1, 1, 1/1000, 12⟩] (by decide) (1, 1)
     ⟨1, 1, 1, 0, 11⟩ (by decide)⟩

/-! ## Claim C3: cropping is *not* idempotent -/

unseal Rat.inv Rat.mul Rat.add Rat.sub in
/-- C3 counterexample: with the window `(0, 1)` ms, a second application
of `crop_stim_artifact` to the output of a first one removes a further
sample from the `(1, 1)` partition (re-zeroing put a sample back at time
`0 ∈ [t0, t1)`), so the partition is not left unchanged. -/
theorem crop_not_idempotent_cx :
    crop_stim_artifact (0, 1) cropTrace =
      some [⟨1, 1, 1, 0, 11⟩, ⟨1, 1, 1, 1/1000, 12⟩] ∧
    crop_stim_artifact (0, 1) [⟨1, 1, 1, 0, 11⟩, ⟨1, 1, 1, 1/1000, 12⟩] =
      some [⟨1, 1, 1, 0, 12⟩] ∧
    partitionOf [⟨1, 1, 1, 0, 12⟩] (1, 1) ≠
      partitionOf [⟨1, 1, 1, 0, 11⟩, ⟨1, 1, 1, 1/1000, 12⟩] (1, 1) := by
  refine ⟨by decide, by decide, by decide⟩

/-- C3 (amended): a second application of `crop_stim_artifact` with the
same window leaves a partition of the first application's output unchanged
*iff* no re-zeroed sample time lies in `[t0, t1)`.  Because re-zeroing
places the first remaining sample at time `0`, any window with
`t0 ≤ 0 < t1` (e.g. the default `(0, 1.25)` ms) re-crops, so cropping is
not idempotent in general. -/
theorem crop_second_application_iff (w : ℚ × ℚ) (hw : w.1 ≤ w.2)
    (tbl out : List SweepRow)
    (hout : crop_stim_artifact w tbl = some out) (k : ℚ × ℤ)
    (hne : partitionOf out k ≠ []) :
    (cropGroup (w.1/1000) (w.2/1000) (partitionOf out k) =
        some (partitionOf out k) ↔
      ∀ r ∈ partitionOf out k, ¬ (w.1/1000 ≤ r.time ∧ r.time < w.2/1000)) := by
  have hdiv : w.1/1000 ≤ w.2/1000 :=
    (div_le_div_iff_of_pos_right (by norm_num)).mpr hw
  have hblock := crop_partitionOf w tbl out hout k hne
  exact cropGroup_fixed_iff _ _ hdiv _ hne
    (cropGroup_sorted _ _ hdiv _ _ hblock)
    (fun r0 hh => cropGroup_head_time _ _ _ _ hblock r0 hh)

unseal Rat.inv Rat.mul Rat.add Rat.sub in
/-- C3 witness: the amended equivalence instantiated on the concrete
cropped fixture. -/
theorem crop_second_application_iff_witness :
    (cropGroup ((0 : ℚ) / 1000) ((1 : ℚ) / 1000)
        (partitionOf [⟨1, 1, 1, 0, 11⟩, ⟨1, 1, 1, 1/1000, 12⟩] (1, 1)) =
      some (partitionOf [⟨1, 1, 1, 0, 11⟩, ⟨1, 1, 1, 1/1000, 12⟩] (1, 1))) ↔
      ∀ r ∈ partitionOf [⟨1, 1, 1, 0, 11⟩, ⟨1, 1, 1, 1/1000, 12⟩] (1, 1),
        ¬ ((0 : ℚ) / 1000 ≤ r.time ∧ r.time < (1 : ℚ) / 1000) :=
  crop_second_application_iff (0, 1) (by norm_num) cropTrace
    [⟨1, 1, 1, 0, 11⟩, ⟨1, 1, 1, 1/1000, 12⟩] (by decide) (1, 1) (by decide)

/-! ## Claim C7: `PopSpikeFeature.run` dependency enforcement -/

/-- C7: running `PopSpikeFeature` against a context whose result mapping
has no `"epsp"` entry, or whose `"epsp"` entry is an empty frame, fails
with the `MissingDependency` error before any per-intensity row is
computed. -/
theorem popSpike_run_missing_dependency (f : PopSpike) (ctx : RecordingContext)
    (h : ctx.get_result "epsp" = none ∨
      ∃ df, ctx.get_result "epsp" = some df ∧ df.isEmpty = true) :
    PopSpike.run f ctx = .error .missingDependency := by
  rcases h with h | ⟨df, hdf, hempty⟩
  · simp [PopSpike.run, h]
  · simp [PopSpike.run, hdf, hempty]

/-- C7 witness: both failure modes at concrete contexts. -/
theorem popSpike_run_missing_dependency_witness :
    PopSpike.run psFeature ctxNoEpsp = .error .missingDependency ∧
    PopSpike.run psFeature ctxEmptyEpsp = .error .missingDependency :=
  ⟨popSpike_run_missing_dependency psFeature ctxNoEpsp (Or.inl (by decide)),
   popSpike_run_missing_dependency psFeature ctxEmptyEpsp
     (Or.inr ⟨.epspDF [], by decide, by decide⟩)⟩

/-! ## Claim C8: `PopSpikeFeature.__init__` required parameters -/

/-- C8 counterexample: the claim says construction succeeds when `lag_ms`
and `prominence` are supplied and only `threshold` is omitted; in the code
`threshold` is in the required-parameter check, so that construction
raises `MissingParameter` naming `threshold`. -/
theorem popSpikeInit_threshold_required :
    popSpikeInit ⟨some 5, some 1, none⟩ =
      .error (.missingParameter ["threshold"]) := by decide

/-- C8 (amended): construction succeeds exactly when all three of
`lag_ms`, `prominence` and `threshold` are present; any missing one —
`threshold` included — raises `MissingParameter`. -/
theorem popSpikeInit_ok_iff (p : PopSpikeParams) :
    (∃ f, popSpikeInit p = .ok f) ↔
      p.lag_ms.isSome = true ∧ p.prominence.isSome = true ∧
        p.threshold.isSome = true := by
  obtain ⟨l, pr, th⟩ := p
  cases l <;> cases pr <;> cases th <;> simp [popSpikeInit]

/-! ## Claim C5: template-subtraction energy guard -/

/-- C5: when the template's energy in the artifact window is at most
`1e-20`, `template_subtract_stim_artifact` returns the intensity group
with every row — in particular every voltage — unchanged (only re-ordered
by the group sort), i.e. the output is a permutation of the input in which
no voltage was modified. -/
theorem template_energy_guard (t0 t1 : ℚ) (gInt : List SweepRow)
    (h : templateEnergy t0 t1 gInt ≤ 1/10^20) :
    subtractTemplateGroup t0 t1 gInt = .ok (sortBySweepTime gInt) ∧
    (sortBySweepTime gInt).Perm gInt := by
  refine ⟨?_, List.perm_insertionSort _ _⟩
  simp only [subtractTemplateGroup]
  rw [if_pos]
  simpa only [templateEnergy] using h

unseal Rat.inv Rat.mul Rat.add Rat.sub in
/-- C5 witness: a group whose template is all-zero inside the `(0, 1)` ms
window (energy exactly 0). -/
theorem template_energy_guard_witness :
    templateEnergy 0 (1/1000) templateZeroGroup ≤ 1/10^20 ∧
    subtractTemplateGroup 0 (1/1000) templateZeroGroup =
      .ok (sortBySweepTime templateZeroGroup) := by
  refine ⟨by decide, (template_energy_guard 0 (1/1000) templateZeroGroup (by decide)).1⟩

end Epspkit
